import Mathlib

/-!
Verification of the cluster control-plane core of the parseable repository
(src/handlers/http/cluster/mod.rs), as a shallow embedding in Lean.

Rust HashMap values are embedded as association lists (`List (String × α)`);
the list order stands for the iteration order of the map, which the source
treats as arbitrary.  Monotonic instants (`std::time::Instant`) are embedded
as natural numbers, and `chrono::NaiveDateTime` timestamps likewise.  Rust
f64 sample values are embedded as rationals, with the saturating `as u64`
cast made explicit.  Outbound HTTP exchanges are embedded as explicit outcome
data passed to the embedded functions, and side effects (registry writes,
per-peer requests) as explicit state passing and effect traces.
-/

set_option maxHeartbeats 1000000

namespace Parseable

/-- Association-list lookup: the first binding of the key, mirroring
HashMap get on maps whose keys are unique. -/
def alookup {α : Type} : List (String × α) → String → Option α
  | [], _ => none
  | (k, v) :: rest, key => if k = key then some v else alookup rest key

/-- Association-list insert: replace the first binding of the key in place,
or append a fresh binding, mirroring HashMap insert. -/
def ainsert {α : Type} : List (String × α) → String → α → List (String × α)
  | [], key, v => [(key, v)]
  | (k, w) :: rest, key, v =>
    if k = key then (k, v) :: rest else (k, w) :: ainsert rest key v

/-- Association-list removal of the binding of a key, mirroring HashMap remove. -/
def aremove {α : Type} : List (String × α) → String → List (String × α)
  | [], _ => []
  | (k, v) :: rest, key => if k = key then rest else (k, v) :: aremove rest key

/-- Association-list in-place update of the binding of a key when present,
mirroring HashMap get_mut followed by a field assignment. -/
def amodify {α : Type} : List (String × α) → String → (α → α) → List (String × α)
  | [], _, _ => []
  | (k, v) :: rest, key, f =>
    if k = key then (k, f v) :: rest else (k, v) :: amodify rest key f

/-- Key-membership test, mirroring HashMap contains_key. -/
def acontains {α : Type} (m : List (String × α)) (key : String) : Bool :=
  (alookup m key).isSome

/-- Node metadata as the dispatcher uses it: stable domain URL and auth token
(QuerierMetadata in the source; the further metadata fields play no role in
the embedded code paths). -/
structure QuerierMetadata where
  domain_name : String
  token : String
deriving Repr, DecidableEq

/-- Registry entry per querier domain: metadata, availability flag, and the
optional instant of last use (struct QuerierStatus in the source). -/
structure QuerierStatus where
  metadata : QuerierMetadata
  available : Bool
  last_used : Option Nat
deriving Repr, DecidableEq

/-- The QUERIER_MAP registry: domain to status, embedded as an association
list whose order is the iteration order of the HashMap. -/
abbrev QuerierMap := List (String × QuerierStatus)

/-- Error type of the query dispatch path; the constructors mirror the
QueryError variants the embedded code constructs. -/
inductive QueryError where
  | noAvailableQuerier
  | serdeErr
  | networkErr
  | anyhowErr
  | jsonParse (body : String)
deriving Repr, DecidableEq

/-- Domains of the registry entries with available set, in iteration order
(the available_queriers vector of select_next_querier). -/
def availableQueriers (map : QuerierMap) : List String :=
  (map.filter (fun e => e.2.available)).map (fun e => e.1)

/-- The loop of select_next_querier over the available list: once the
last-used domain has been seen, return the following element. -/
def findAfter : List String → String → Option String
  | [], _ => none
  | d :: rest, last => if d = last then rest.head? else findAfter rest last

/-- Round-robin selection (select_next_querier in the source): over the
available domains, pick the one after the last-used pointer, wrapping to the
first; the pointer is then set to the chosen domain by the caller. -/
def select_next_querier (map : QuerierMap) (lastUsed : Option String) : Option String :=
  let avail := availableQueriers map
  if avail.isEmpty then none
  else
    match lastUsed with
    | some last =>
      match findAfter avail last with
      | some d => some d
      | none => avail.head?
    | none => avail.head?

/-- The accumulator loop of select_least_recently_used_querier: candidate
domain and the oldest instant seen so far (None once a never-used entry has
been found). -/
def lruLoop : Option String → Option Nat → QuerierMap → Option String
  | cand, _, [] => cand
  | cand, oldest, (d, st) :: rest =>
    match st.last_used, oldest with
    | none, _ => lruLoop (some d) none rest
    | some t, none =>
      if cand.isNone then lruLoop (some d) (some t) rest
      else lruLoop cand none rest
    | some t, some cur =>
      if t < cur then lruLoop (some d) (some t) rest
      else lruLoop cand (some cur) rest

/-- LRU fallback selection (select_least_recently_used_querier in the
source). -/
def select_least_recently_used_querier (map : QuerierMap) : Option String :=
  if map.isEmpty then none else lruLoop none none map

/-- Live-domain loop of the registry update phase of get_available_querier:
for each domain reported live, refresh the metadata of its entry when
present (preserving available and last_used) or insert a fresh available
entry. -/
def updateLivePhase (map : QuerierMap)
    (liveness_results : List (String × Bool × QuerierMetadata)) : QuerierMap :=
  liveness_results.foldl
    (fun m r =>
      if r.2.1 then
        if acontains m r.1 then amodify m r.1 (fun st => { st with metadata := r.2.2 })
        else m ++ [(r.1, ⟨r.2.2, true, none⟩)]
      else m)
    map

/-- Pruning loop of the registry update phase: remove every previously
present domain that is not in the live set. -/
def prunePhase (updated : QuerierMap) (existing_domains live_domains : List String) :
    QuerierMap :=
  existing_domains.foldl
    (fun m d => if live_domains.contains d then m else aremove m d) updated

/-- Registry update phase of get_available_querier: refresh metadata of live
domains, insert fresh entries for newly live domains, then prune every
previously present domain that was not reported live. -/
def updateQuerierMap (map : QuerierMap)
    (liveness_results : List (String × Bool × QuerierMetadata)) : QuerierMap :=
  let existing_domains := map.map (fun e => e.1)
  prunePhase (updateLivePhase map liveness_results) existing_domains
    (liveness_results.filterMap (fun r => if r.2.1 then some r.1 else none))

/-- Result of a successful acquire: the metadata clone returned, the registry
after the acquisition, and the last-used pointer after the call. -/
structure AcquireOutcome where
  metadata : QuerierMetadata
  map : QuerierMap
  lastUsed : Option String
deriving Repr, DecidableEq

/-- The LRU branch of get_available_querier: select by LRU, mark the chosen
entry dispatched; the last-used pointer is not written on this branch. -/
def lruBranch (map : QuerierMap) (lastUsed : Option String) (now : Nat) :
    Except QueryError AcquireOutcome :=
  match select_least_recently_used_querier map with
  | some d =>
    match alookup map d with
    | some st =>
      .ok ⟨st.metadata,
        amodify map d (fun s => { s with available := false, last_used := some now }),
        lastUsed⟩
    | none => .error .noAvailableQuerier
  | none => .error .noAvailableQuerier

/-- Selection section of get_available_querier, run on the registry after the
update phase: round-robin first (which also advances the last-used pointer),
LRU fallback otherwise, NoAvailableQuerier when both find nothing. -/
def select_and_acquire (map : QuerierMap) (lastUsed : Option String) (now : Nat) :
    Except QueryError AcquireOutcome :=
  match select_next_querier map lastUsed with
  | some d =>
    match alookup map d with
    | some st =>
      .ok ⟨st.metadata,
        amodify map d (fun s => { s with available := false, last_used := some now }),
        some d⟩
    | none => lruBranch map (some d) now
  | none => lruBranch map lastUsed now

/-- The lock-held section of get_available_querier, given the liveness probe
results of the current call: registry update phase followed by selection. -/
def get_available_querier_core (map : QuerierMap) (lastUsed : Option String)
    (liveness_results : List (String × Bool × QuerierMetadata)) (now : Nat) :
    Except QueryError AcquireOutcome :=
  select_and_acquire (updateQuerierMap map liveness_results) lastUsed now

/-- Mark a querier available again (mark_querier_available in the source):
set the flag when the domain is still present, leave last_used untouched. -/
def mark_querier_available (map : QuerierMap) (domain_name : String) : QuerierMap :=
  amodify map domain_name (fun st => { st with available := true })

/-- Specification-side round-robin rule, following the words of the spec: if
the pointer holds a domain of the available list that is not its last
element, the domain immediately after it is chosen; otherwise the first
available domain is chosen.  To be compared with select_next_querier. -/
def roundRobinSpec (avail : List String) : Option String → Option String
  | none => avail.head?
  | some d =>
    if d ∈ avail then
      match avail[avail.indexOf d + 1]? with
      | some nxt => some nxt
      | none => avail.head?
    else avail.head?

/-- Last domain in iteration order whose entry was never used (last_used
absent). -/
def lastNoneDomain : QuerierMap → Option String
  | [] => none
  | (d, st) :: rest =>
    match lastNoneDomain rest with
    | some x => some x
    | none => if st.last_used = none then some d else none

/-- First domain in iteration order whose entry was never used; the reading
of the tie-breaking clause of the claim. -/
def firstNoneDomain (map : QuerierMap) : Option String :=
  (map.find? (fun e => e.2.last_used = none)).map (fun e => e.1)

/-- Smallest last_used instant over the registry, ignoring never-used
entries. -/
def minInstant : QuerierMap → Option Nat
  | [] => none
  | (_, st) :: rest =>
    match st.last_used, minInstant rest with
    | none, r => r
    | some u, none => some u
    | some u, some v => some (min u v)

/-- First domain in iteration order whose last_used instant equals the given
one. -/
def firstWithInstant (u : Nat) (map : QuerierMap) : Option String :=
  (map.find? (fun e => e.2.last_used = some u)).map (fun e => e.1)

/-- First domain in iteration order whose last_used instant attains the
minimum. -/
def firstMinDomain (map : QuerierMap) : Option String :=
  match minInstant map with
  | some u => firstWithInstant u map
  | none => none

/-- Specification-side LRU rule as the code realises it: the last never-used
domain in iteration order when one exists, otherwise the first domain with
the smallest last_used instant.  To be compared with
select_least_recently_used_querier. -/
def lruSpec (map : QuerierMap) : Option String :=
  match lastNoneDomain map with
  | some d => some d
  | none => firstMinDomain map

/-- Domains reported live by the probe results of a call, in report order. -/
def liveSet (liveness_results : List (String × Bool × QuerierMetadata)) : List String :=
  liveness_results.filterMap (fun r => if r.2.1 then some r.1 else none)

/-- Metadata of the last live report for a domain within the probe results
of a call (the value the update phase leaves in the entry). -/
def lastLiveMeta : List (String × Bool × QuerierMetadata) → String → Option QuerierMetadata
  | [], _ => none
  | (dom, live, meta) :: rest, d =>
    match lastLiveMeta rest d with
    | some m => some m
    | none => if live = true ∧ dom = d then some meta else none

/-!  Billing metrics pipeline. -/

/-- Flat billing event row (struct BillingMetricEvent in the source), with
the timestamp embedded as a natural number. -/
structure BillingMetricEvent where
  node_address : String
  node_type : String
  metric_type : String
  date : String
  value : Nat
  method : Option String
  provider : Option String
  model : Option String
  event_type : String
  event_time : Nat
deriving Repr, DecidableEq

/-- Pivot structure filled from one scrape of one node (struct
BillingMetricsCollector in the source), with each HashMap embedded as an
association list. -/
structure BillingMetricsCollector where
  node_address : String
  node_type : String
  total_events_ingested_by_date : List (String × Nat)
  total_events_ingested_size_by_date : List (String × Nat)
  total_parquets_stored_by_date : List (String × Nat)
  total_parquets_stored_size_by_date : List (String × Nat)
  total_query_calls_by_date : List (String × Nat)
  total_files_scanned_in_query_by_date : List (String × Nat)
  total_bytes_scanned_in_query_by_date : List (String × Nat)
  total_object_store_calls_by_date : List (String × List (String × Nat))
  total_files_scanned_in_object_store_calls_by_date : List (String × List (String × Nat))
  total_bytes_scanned_in_object_store_calls_by_date : List (String × List (String × Nat))
  total_input_llm_tokens_by_date : List (String × List (String × List (String × Nat)))
  total_output_llm_tokens_by_date : List (String × List (String × List (String × Nat)))
  event_time : Nat
deriving Repr, DecidableEq

/-- Collector of a fresh scrape (BillingMetricsCollector new): empty maps and
the construction timestamp, which the caller takes from the clock. -/
def BillingMetricsCollector.new (node_address node_type : String) (now : Nat) :
    BillingMetricsCollector :=
  ⟨node_address, node_type, [], [], [], [], [], [], [], [], [], [], [], [], now⟩

/-- Event built by the simple-family explosion. -/
def mkSimpleEvent (c : BillingMetricsCollector) (metric_type date : String) (value : Nat) :
    BillingMetricEvent :=
  ⟨c.node_address, c.node_type, metric_type, date, value, none, none, none,
    "billing-metrics", c.event_time⟩

/-- Explosion of one simple date-keyed map (the add_simple_metric closure):
one event per date with a positive value. -/
def simpleFamilyEvents (c : BillingMetricsCollector) (metric_type : String)
    (data : List (String × Nat)) : List BillingMetricEvent :=
  data.filterMap (fun e => if 0 < e.2 then some (mkSimpleEvent c metric_type e.1 e.2) else none)

/-- Simple-family section of into_events (add_simple_metrics in the source):
each of the seven maps is exploded when non-empty. -/
def addSimpleMetrics (c : BillingMetricsCollector) : List BillingMetricEvent :=
  (if c.total_events_ingested_by_date.isEmpty then []
    else simpleFamilyEvents c "total_events_ingested" c.total_events_ingested_by_date) ++
  (if c.total_events_ingested_size_by_date.isEmpty then []
    else simpleFamilyEvents c "total_events_ingested_size" c.total_events_ingested_size_by_date) ++
  (if c.total_parquets_stored_by_date.isEmpty then []
    else simpleFamilyEvents c "total_parquets_stored" c.total_parquets_stored_by_date) ++
  (if c.total_parquets_stored_size_by_date.isEmpty then []
    else simpleFamilyEvents c "total_parquets_stored_size" c.total_parquets_stored_size_by_date) ++
  (if c.total_query_calls_by_date.isEmpty then []
    else simpleFamilyEvents c "total_query_calls" c.total_query_calls_by_date) ++
  (if c.total_files_scanned_in_query_by_date.isEmpty then []
    else simpleFamilyEvents c "total_files_scanned_in_query" c.total_files_scanned_in_query_by_date) ++
  (if c.total_bytes_scanned_in_query_by_date.isEmpty then []
    else simpleFamilyEvents c "total_bytes_scanned_in_query" c.total_bytes_scanned_in_query_by_date)

/-- Explosion of one object-store method and date keyed map: one event per
date with a positive value, the method carried along. -/
def objStoreFamilyEvents (c : BillingMetricsCollector) (metric_type : String)
    (data : List (String × List (String × Nat))) : List BillingMetricEvent :=
  data.flatMap (fun me =>
    me.2.filterMap (fun de =>
      if 0 < de.2 then
        some ⟨c.node_address, c.node_type, metric_type, de.1, de.2, some me.1, none, none,
          "billing-metrics", c.event_time⟩
      else none))

/-- Object-store family section of into_events (add_object_store_metrics):
method keyed maps of date keyed counters, one event per positive value. -/
def addObjectStoreMetrics (c : BillingMetricsCollector) : List BillingMetricEvent :=
  [("total_object_store_calls", c.total_object_store_calls_by_date),
   ("total_files_scanned_in_object_store_calls",
     c.total_files_scanned_in_object_store_calls_by_date),
   ("total_bytes_scanned_in_object_store_calls",
     c.total_bytes_scanned_in_object_store_calls_by_date)].flatMap
    (fun p => if p.2.isEmpty then [] else objStoreFamilyEvents c p.1 p.2)

/-- Explosion of one LLM provider, model and date keyed map: one event per
date with a positive value, provider and model carried along. -/
def llmFamilyEvents (c : BillingMetricsCollector) (metric_type : String)
    (data : List (String × List (String × List (String × Nat)))) : List BillingMetricEvent :=
  data.flatMap (fun pe =>
    pe.2.flatMap (fun me =>
      me.2.filterMap (fun de =>
        if 0 < de.2 then
          some ⟨c.node_address, c.node_type, metric_type, de.1, de.2, none, some pe.1,
            some me.1, "billing-metrics", c.event_time⟩
        else none)))

/-- LLM family section of into_events (add_llm_metrics): provider, model and
date keyed counters, one event per positive value. -/
def addLlmMetrics (c : BillingMetricsCollector) : List BillingMetricEvent :=
  [("total_input_llm_tokens", c.total_input_llm_tokens_by_date),
   ("total_output_llm_tokens", c.total_output_llm_tokens_by_date)].flatMap
    (fun p => if p.2.isEmpty then [] else llmFamilyEvents c p.1 p.2)

/-- Explosion of the collector into flat event rows (into_events in the
source). -/
def BillingMetricsCollector.into_events (c : BillingMetricsCollector) :
    List BillingMetricEvent :=
  addSimpleMetrics c ++ addObjectStoreMetrics c ++ addLlmMetrics c

/-- Value of a Prometheus exposition sample, with the numeric payloads
embedded as rationals; histogram and summary payloads are never read by the
embedded code and are omitted. -/
inductive PromValue where
  | counter (v : Rat)
  | gauge (v : Rat)
  | untyped (v : Rat)
  | histogram
  | summary
deriving Repr, DecidableEq

/-- One parsed exposition sample: metric name, label map and value. -/
structure Sample where
  metric : String
  labels : List (String × String)
  value : PromValue
deriving Repr, DecidableEq

/-- Saturating cast of a finite f64 sample value to u64 (the val as u64 of
the source): truncation toward zero, clamped to the u64 range. -/
def f64_as_u64 (q : Rat) : Nat :=
  if q ≤ 0 then 0 else min q.floor.toNat (2 ^ 64 - 1)

/-- Membership of the simple date-keyed metric family (is_simple_metric). -/
def is_simple_metric (metric : String) : Bool :=
  metric == "parseable_total_events_ingested_by_date" ||
  metric == "parseable_total_events_ingested_size_by_date" ||
  metric == "parseable_total_parquets_stored_by_date" ||
  metric == "parseable_total_parquets_stored_size_by_date" ||
  metric == "parseable_total_query_calls_by_date" ||
  metric == "parseable_total_files_scanned_in_query_by_date" ||
  metric == "parseable_total_bytes_scanned_in_query_by_date"

/-- Membership of the object-store metric family (is_object_store_metric). -/
def is_object_store_metric (metric : String) : Bool :=
  metric == "parseable_total_object_store_calls_by_date" ||
  metric == "parseable_total_files_scanned_in_object_store_calls_by_date" ||
  metric == "parseable_total_bytes_scanned_in_object_store_calls_by_date"

/-- Membership of the LLM token metric family (is_llm_metric). -/
def is_llm_metric (metric : String) : Bool :=
  metric == "parseable_total_input_llm_tokens_by_date" ||
  metric == "parseable_total_output_llm_tokens_by_date"

/-- Insertion into a two-level map: the entry or_insert_with pattern of the
source, fetching the inner map of the first key (empty when absent) and
inserting at the second key. -/
def ainsert2 (m : List (String × List (String × Nat))) (k1 k2 : String) (v : Nat) :
    List (String × List (String × Nat)) :=
  ainsert m k1 (ainsert ((alookup m k1).getD []) k2 v)

/-- Insertion into a three-level map, mirroring the chained entry calls of
process_llm_metric. -/
def ainsert3 (m : List (String × List (String × List (String × Nat)))) (k1 k2 k3 : String)
    (v : Nat) : List (String × List (String × List (String × Nat))) :=
  let inner := (alookup m k1).getD []
  ainsert m k1 (ainsert inner k2 (ainsert ((alookup inner k2).getD []) k3 v))

/-- Processing of a simple-family counter (process_simple_metric): require
the date label, then overwrite the date slot of the matching map. -/
def process_simple_metric (c : BillingMetricsCollector) (metric : String)
    (labels : List (String × String)) (val : Rat) : BillingMetricsCollector :=
  match alookup labels "date" with
  | none => c
  | some date =>
    let value := f64_as_u64 val
    if metric = "parseable_total_events_ingested_by_date" then
      { c with total_events_ingested_by_date :=
          ainsert c.total_events_ingested_by_date date value }
    else if metric = "parseable_total_events_ingested_size_by_date" then
      { c with total_events_ingested_size_by_date :=
          ainsert c.total_events_ingested_size_by_date date value }
    else if metric = "parseable_total_parquets_stored_by_date" then
      { c with total_parquets_stored_by_date :=
          ainsert c.total_parquets_stored_by_date date value }
    else if metric = "parseable_total_parquets_stored_size_by_date" then
      { c with total_parquets_stored_size_by_date :=
          ainsert c.total_parquets_stored_size_by_date date value }
    else if metric = "parseable_total_query_calls_by_date" then
      { c with total_query_calls_by_date :=
          ainsert c.total_query_calls_by_date date value }
    else if metric = "parseable_total_files_scanned_in_query_by_date" then
      { c with total_files_scanned_in_query_by_date :=
          ainsert c.total_files_scanned_in_query_by_date date value }
    else if metric = "parseable_total_bytes_scanned_in_query_by_date" then
      { c with total_bytes_scanned_in_query_by_date :=
          ainsert c.total_bytes_scanned_in_query_by_date date value }
    else c

/-- Processing of an object-store counter (process_object_store_metric):
require method and date labels, then overwrite the method and date slot of
the matching map. -/
def process_object_store_metric (c : BillingMetricsCollector) (metric : String)
    (labels : List (String × String)) (val : Rat) : BillingMetricsCollector :=
  match alookup labels "method", alookup labels "date" with
  | some method, some date =>
    let value := f64_as_u64 val
    if metric = "parseable_total_object_store_calls_by_date" then
      { c with total_object_store_calls_by_date :=
          ainsert2 c.total_object_store_calls_by_date method date value }
    else if metric = "parseable_total_files_scanned_in_object_store_calls_by_date" then
      { c with total_files_scanned_in_object_store_calls_by_date :=
          ainsert2 c.total_files_scanned_in_object_store_calls_by_date method date value }
    else if metric = "parseable_total_bytes_scanned_in_object_store_calls_by_date" then
      { c with total_bytes_scanned_in_object_store_calls_by_date :=
          ainsert2 c.total_bytes_scanned_in_object_store_calls_by_date method date value }
    else c
  | _, _ => c

/-- Processing of an LLM token counter (process_llm_metric): require
provider, model and date labels, then overwrite the corresponding slot. -/
def process_llm_metric (c : BillingMetricsCollector) (metric : String)
    (labels : List (String × String)) (val : Rat) : BillingMetricsCollector :=
  match alookup labels "provider", alookup labels "model", alookup labels "date" with
  | some provider, some model, some date =>
    let value := f64_as_u64 val
    if metric = "parseable_total_input_llm_tokens_by_date" then
      { c with total_input_llm_tokens_by_date :=
          ainsert3 c.total_input_llm_tokens_by_date provider model date value }
    else if metric = "parseable_total_output_llm_tokens_by_date" then
      { c with total_output_llm_tokens_by_date :=
          ainsert3 c.total_output_llm_tokens_by_date provider model date value }
    else c
  | _, _, _ => c

/-- Dispatch of one counter sample by metric family (process_sample). -/
def process_sample (c : BillingMetricsCollector) (s : Sample) (val : Rat) :
    BillingMetricsCollector :=
  if is_simple_metric s.metric then process_simple_metric c s.metric s.labels val
  else if is_object_store_metric s.metric then
    process_object_store_metric c s.metric s.labels val
  else if is_llm_metric s.metric then process_llm_metric c s.metric s.labels val
  else c

/-- Fold of the counter samples of a scrape into a collector: the loop of
extract_billing_metrics_from_samples, skipping non-counter values. -/
def processSamples (c : BillingMetricsCollector) (samples : List Sample) :
    BillingMetricsCollector :=
  samples.foldl
    (fun c s =>
      match s.value with
      | .counter v => process_sample c s v
      | _ => c)
    c

/-- Billing aggregation of one scrape (extract_billing_metrics_from_samples),
with the construction timestamp of the collector passed explicitly in place
of the ambient clock. -/
def extract_billing_metrics_from_samples (samples : List Sample)
    (node_address node_type : String) (now : Nat) : List BillingMetricEvent :=
  (processSamples (BillingMetricsCollector.new node_address node_type now) samples).into_events

/-- Simple-family map of the collector addressed by a metric name
(the match arms of process_simple_metric). -/
def simpleFieldOf (metric : String) (c : BillingMetricsCollector) : List (String × Nat) :=
  if metric = "parseable_total_events_ingested_by_date" then c.total_events_ingested_by_date
  else if metric = "parseable_total_events_ingested_size_by_date" then
    c.total_events_ingested_size_by_date
  else if metric = "parseable_total_parquets_stored_by_date" then c.total_parquets_stored_by_date
  else if metric = "parseable_total_parquets_stored_size_by_date" then
    c.total_parquets_stored_size_by_date
  else if metric = "parseable_total_query_calls_by_date" then c.total_query_calls_by_date
  else if metric = "parseable_total_files_scanned_in_query_by_date" then
    c.total_files_scanned_in_query_by_date
  else if metric = "parseable_total_bytes_scanned_in_query_by_date" then
    c.total_bytes_scanned_in_query_by_date
  else []

/-- Object-store family map of the collector addressed by a metric name. -/
def objFieldOf (metric : String) (c : BillingMetricsCollector) :
    List (String × List (String × Nat)) :=
  if metric = "parseable_total_object_store_calls_by_date" then
    c.total_object_store_calls_by_date
  else if metric = "parseable_total_files_scanned_in_object_store_calls_by_date" then
    c.total_files_scanned_in_object_store_calls_by_date
  else if metric = "parseable_total_bytes_scanned_in_object_store_calls_by_date" then
    c.total_bytes_scanned_in_object_store_calls_by_date
  else []

/-- LLM family map of the collector addressed by a metric name. -/
def llmFieldOf (metric : String) (c : BillingMetricsCollector) :
    List (String × List (String × List (String × Nat))) :=
  if metric = "parseable_total_input_llm_tokens_by_date" then c.total_input_llm_tokens_by_date
  else if metric = "parseable_total_output_llm_tokens_by_date" then
    c.total_output_llm_tokens_by_date
  else []

/-- Lookup through a two-level map. -/
def alookup2 (m : List (String × List (String × Nat))) (k1 k2 : String) : Option Nat :=
  alookup ((alookup m k1).getD []) k2

/-- Lookup through a three-level map. -/
def alookup3 (m : List (String × List (String × List (String × Nat)))) (k1 k2 k3 : String) :
    Option Nat :=
  alookup2 ((alookup m k1).getD []) k2 k3

/-- Event with the timestamp field cleared, used to compare event lists up to
the construction timestamp. -/
def eraseEventTime (e : BillingMetricEvent) : BillingMetricEvent :=
  { e with event_time := 0 }

/-!  Query dispatch (send_query_request). -/

/-- Parsed JSON body, kept opaque: the dispatcher forwards it verbatim. -/
structure JsonValue where
  raw : String
deriving Repr, DecidableEq

/-- Response of the query POST once headers are available: status class, the
elapsed-time header when present and readable, and the outcome of reading the
body (none embeds a transport error during the body read). -/
structure HttpResponse where
  status_success : Bool
  elapsed_header : Option String
  text_result : Option String
deriving Repr, DecidableEq

/-- Outcome of one dispatch attempt, in pipeline order: body serialization
failure, transport failure of the POST, or a response with headers
available. -/
inductive SendOutcome where
  | serErr
  | sendErr
  | response (res : HttpResponse)
deriving Repr, DecidableEq

/-- The dispatch path after a querier has been acquired (send_query_request in
the source, with the acquired querier given): returns the trace of
mark_querier_available calls, the registry after them, and the result.  JSON
parsing of the response body is passed in as a function. -/
def send_query_request (parse_json : String → Option JsonValue)
    (querier : QuerierMetadata) (outcome : SendOutcome) (map : QuerierMap) :
    List String × QuerierMap × Except QueryError (JsonValue × String) :=
  let domain_name := querier.domain_name
  match outcome with
  | .serErr => ([domain_name], mark_querier_available map domain_name, .error .serdeErr)
  | .sendErr => ([domain_name], mark_querier_available map domain_name, .error .networkErr)
  | .response res =>
    let marked := mark_querier_available map domain_name
    let total_time := res.elapsed_header.getD ""
    if res.status_success then
      match res.text_result with
      | some text =>
        match parse_json text with
        | some j => ([domain_name], marked, .ok (j, total_time))
        | none => ([domain_name], marked, .error .serdeErr)
      | none => ([domain_name], marked, .error .anyhowErr)
    else
      match res.text_result with
      | some err_text => ([domain_name], marked, .error (.jsonParse err_text))
      | none => ([domain_name], marked, .error .networkErr)

/-!  Broadcast fan-out (for_each_live_ingestor). -/

/-- Peer metadata of the broadcast path (NodeMetadata in the source). -/
structure NodeMetadata where
  domain_name : String
  token : String
deriving Repr, DecidableEq

/-- Sequential fold collecting the per-peer results: the loop returning the
first error of the list. -/
def collectResults {ε : Type} : List (Except ε Unit) → Except ε Unit
  | [] => .ok ()
  | .ok _ :: rest => collectResults rest
  | .error e :: _ => .error e

/-- Broadcast executor (for_each_live_ingestor), embedded after a successful
metadata load: the per-peer action yields an effect token recording its HTTP
side effect together with its result; all live peers run before the results
are folded, so every effect is produced even when some actions fail. -/
def for_each_live_ingestor {α ε : Type} (ingestors : List NodeMetadata)
    (is_live : NodeMetadata → Bool) (api_fn : NodeMetadata → α × Except ε Unit) :
    List α × Except ε Unit :=
  let live_ingestors := ingestors.filter is_live
  let results := live_ingestors.map api_fn
  (results.map (fun r => r.1), collectResults (results.map (fun r => r.2)))

/-!  Cluster-wide metrics collection (operational and billing variants). -/

/-- Error type of the collection path; the constructors mirror the PostError
variants the embedded code constructs. -/
inductive PostError where
  | invalid
  | networkError
  | customError
deriving Repr, DecidableEq

/-- Outcome of scraping one node, in pipeline order: URL construction,
liveness probe, metrics GET, body read, exposition parse, and the parsed
samples on full success. -/
inductive ScrapeOutcome where
  | badUrl
  | notLive
  | sendErr
  | bodyErr
  | parseErr
  | okSamples (samples : List Sample)
deriving Repr, DecidableEq

/-- Operational per-node scrape (fetch_node_metrics): a dead node or a
transport error on the GET is skipped with none, every later failure is an
error; conversion of samples into the typed Metrics record lives outside the
embedded sources and is passed in as a function. -/
def fetch_node_metrics {μ : Type} (conv : List Sample → Option μ) :
    ScrapeOutcome → Except PostError (Option μ)
  | .badUrl => .error .invalid
  | .notLive => .ok none
  | .sendErr => .ok none
  | .bodyErr => .error .networkError
  | .parseErr => .error .customError
  | .okSamples samples =>
    match conv samples with
    | some m => .ok (some m)
    | none => .error .invalid

/-- The result loop of fetch_nodes_metrics: skip none, keep values,
return the first error. -/
def collectNodeMetrics {μ : Type} : List (Except PostError (Option μ)) →
    Except PostError (List μ)
  | [] => .ok []
  | .ok (some m) :: rest =>
    match collectNodeMetrics rest with
    | .ok l => .ok (m :: l)
    | .error e => .error e
  | .ok none :: rest => collectNodeMetrics rest
  | .error e :: _ => .error e

/-- Operational multi-node scrape (fetch_nodes_metrics): every node is
fetched, then the results are folded with first-error semantics. -/
def fetch_nodes_metrics {μ : Type} (conv : List Sample → Option μ)
    (nodes : List ScrapeOutcome) : Except PostError (List μ) :=
  if nodes.isEmpty then .ok []
  else collectNodeMetrics (nodes.map (fetch_node_metrics conv))

/-- Per-node input of the billing scrape: identity of the node, the
construction timestamp of its collector, and the scrape outcome. -/
structure BillingNodeInput where
  node_address : String
  node_type : String
  now : Nat
  outcome : ScrapeOutcome
deriving Repr, DecidableEq

/-- Billing per-node scrape (fetch_node_billing_metrics): same skip rules as
the operational variant, with the samples aggregated into billing events. -/
def fetch_node_billing_metrics (n : BillingNodeInput) :
    Except PostError (List BillingMetricEvent) :=
  match n.outcome with
  | .badUrl => .error .invalid
  | .notLive => .ok []
  | .sendErr => .ok []
  | .bodyErr => .error .networkError
  | .parseErr => .error .customError
  | .okSamples samples =>
    .ok (extract_billing_metrics_from_samples samples n.node_address n.node_type n.now)

/-- Billing multi-node scrape (fetch_nodes_billing_metrics): per-node errors
are logged and skipped, the events of the remaining nodes are returned. -/
def fetch_nodes_billing_metrics (nodes : List BillingNodeInput) :
    Except PostError (List BillingMetricEvent) :=
  if nodes.isEmpty then .ok []
  else
    .ok (nodes.foldl
      (fun acc n =>
        match fetch_node_billing_metrics n with
        | .ok evs => acc ++ evs
        | .error _ => acc)
      [])

/-- Operational cluster pass (fetch_cluster_metrics): a metadata-load failure
for any role fails the call, then the per-role scrapes are combined with
first-error semantics in role order. -/
def fetch_cluster_metrics {μ : Type} (conv : List Sample → Option μ)
    (prism querier ingestor indexer : Except Unit (List ScrapeOutcome)) :
    Except PostError (List μ) :=
  match prism, querier, ingestor, indexer with
  | .ok ps, .ok qs, .ok igs, .ok ixs =>
    match fetch_nodes_metrics conv ps with
    | .error e => .error e
    | .ok l1 =>
      match fetch_nodes_metrics conv qs with
      | .error e => .error e
      | .ok l2 =>
        match fetch_nodes_metrics conv igs with
        | .error e => .error e
        | .ok l3 =>
          match fetch_nodes_metrics conv ixs with
          | .error e => .error e
          | .ok l4 => .ok (l1 ++ l2 ++ l3 ++ l4)
  | _, _, _, _ => .error .invalid

/-- Billing cluster pass (fetch_cluster_billing_metrics): a metadata-load
failure for any role fails the call, per-role scrape errors are logged and
skipped. -/
def fetch_cluster_billing_metrics
    (prism querier ingestor indexer : Except Unit (List BillingNodeInput)) :
    Except PostError (List BillingMetricEvent) :=
  match prism, querier, ingestor, indexer with
  | .ok ps, .ok qs, .ok igs, .ok ixs =>
    let part (r : Except PostError (List BillingMetricEvent)) : List BillingMetricEvent :=
      match r with
      | .ok l => l
      | .error _ => []
    .ok (part (fetch_nodes_billing_metrics ps) ++ part (fetch_nodes_billing_metrics qs) ++
      part (fetch_nodes_billing_metrics igs) ++ part (fetch_nodes_billing_metrics ixs))
  | _, _, _, _ => .error .invalid

/-!  Cluster info endpoint (fetch_node_info, fetch_nodes_info). -/

/-- Error type of the cluster-info path; the constructors mirror the
StreamError variants the embedded code constructs. -/
inductive StreamError where
  | network
  | serde
deriving Repr, DecidableEq

/-- Shape of the staging field inside a parsed about body. -/
inductive StagingField where
  | missing
  | nonString
  | str (s : String)
deriving Repr, DecidableEq

/-- Outcome of reading the about response body. -/
inductive AboutBody where
  | bytesErr
  | parseFail
  | parsed (staging : StagingField)
deriving Repr, DecidableEq

/-- Outcome of the about exchange with one node: a transport error with its
message and optional status, or a response (of any status class) with a body
outcome. -/
inductive AboutOutcome where
  | sendErr (err_msg : String) (status : Option String)
  | sendOk (status : String) (body : AboutBody)
deriving Repr, DecidableEq

/-- Per-node snapshot of the cluster-info response (utils ClusterInfo, built
through its constructor with the argument order of the call site). -/
structure ClusterInfo where
  domain_name : String
  reachable : Bool
  staging_path : String
  storage_path : String
  error : Option String
  status : Option String
  node_type : String
deriving Repr, DecidableEq

/-- Per-node input of the cluster-info pass. -/
structure NodeAboutInput where
  node : NodeMetadata
  node_type : String
  storage_endpoint : String
  outcome : AboutOutcome
deriving Repr, DecidableEq

/-- Info fetch for a single node (fetch_node_info): a transport error yields
an unreachable entry with empty staging path and the recorded error and
status; a received response has its body read, parsed, and its staging field
extracted, each failure propagating as an error of the whole call. -/
def fetch_node_info (n : NodeAboutInput) : Except StreamError ClusterInfo :=
  match n.outcome with
  | .sendOk status body =>
    match body with
    | .bytesErr => .error .network
    | .parseFail => .error .serde
    | .parsed .missing => .error .serde
    | .parsed .nonString => .error .serde
    | .parsed (.str sp) =>
      .ok ⟨n.node.domain_name, true, sp, n.storage_endpoint, none, some status, n.node_type⟩
  | .sendErr msg status =>
    .ok ⟨n.node.domain_name, false, "", n.storage_endpoint, some msg, status, n.node_type⟩

/-- The result loop of fetch_nodes_info: collect entries, propagating the
first error. -/
def collectInfos : List (Except StreamError ClusterInfo) →
    Except StreamError (List ClusterInfo)
  | [] => .ok []
  | .ok i :: rest =>
    match collectInfos rest with
    | .ok l => .ok (i :: l)
    | .error e => .error e
  | .error e :: _ => .error e

/-- Info fetch across nodes (fetch_nodes_info): every node is fetched, then
the results are folded, any error failing the whole call. -/
def fetch_nodes_info (nodes : List NodeAboutInput) : Except StreamError (List ClusterInfo) :=
  if nodes.isEmpty then .ok []
  else collectInfos (nodes.map fetch_node_info)

/-- Decidable equality of results, used to evaluate the theorems below on
concrete inputs. -/
instance instDecEqExcept {ε α : Type} [DecidableEq ε] [DecidableEq α] :
    DecidableEq (Except ε α) := fun x y =>
  match x, y with
  | .ok a, .ok b =>
    match decEq a b with
    | isTrue h => isTrue (by rw [h])
    | isFalse h => isFalse (by intro hh; cases hh; exact h rfl)
  | .error e, .error f =>
    match decEq e f with
    | isTrue h => isTrue (by rw [h])
    | isFalse h => isFalse (by intro hh; cases hh; exact h rfl)
  | .ok _, .error _ => isFalse (by intro hh; cases hh)
  | .error _, .ok _ => isFalse (by intro hh; cases hh)

/-!  Concrete values used to instantiate the theorems below. -/

/-- Metadata of an example querier a. -/
def metaA : QuerierMetadata := ⟨"http://a/", "tokA"⟩

/-- Metadata of an example querier b. -/
def metaB : QuerierMetadata := ⟨"http://b/", "tokB"⟩

/-- Metadata of an example querier c. -/
def metaC : QuerierMetadata := ⟨"http://c/", "tokC"⟩

/-- Registry with three available queriers, for the round-robin witness. -/
def rrMap : QuerierMap :=
  [("http://a/", ⟨metaA, true, some 1⟩),
   ("http://b/", ⟨metaB, true, some 2⟩),
   ("http://c/", ⟨metaC, true, some 3⟩)]

/-- Registry with two dispatched, never-used queriers: the tie case of the
LRU fallback. -/
def lruTieMap : QuerierMap :=
  [("http://a/", ⟨metaA, false, none⟩),
   ("http://b/", ⟨metaB, false, none⟩)]

/-- Registry with three dispatched queriers of increasing last-used
instants, for the LRU witness. -/
def lruMap : QuerierMap :=
  [("http://a/", ⟨metaA, false, some 1⟩),
   ("http://b/", ⟨metaB, false, some 2⟩),
   ("http://c/", ⟨metaC, false, some 3⟩)]

/-- Registry holding a and b, for the pruning witness: the probe of that
witness reports a live, b dead, c newly live. -/
def pruneMap : QuerierMap :=
  [("http://a/", ⟨metaA, true, some 1⟩),
   ("http://b/", ⟨metaB, false, some 2⟩)]

/-- Probe results of the pruning witness. -/
def pruneProbe : List (String × Bool × QuerierMetadata) :=
  [("http://a/", true, metaA), ("http://b/", false, metaB), ("http://c/", true, metaC)]

/-- Sample of the simple billing family used in concrete instances. -/
def sampleSimple : Sample :=
  ⟨"parseable_total_events_ingested_by_date", [("date", "2024-01-01")], .counter 5⟩

/-- A JSON parser accepting every body, used to instantiate the dispatch
theorems. -/
def parseAll (s : String) : Option JsonValue := some ⟨s⟩

/-- Sample conversion used to instantiate the operational collection
theorems: the number of samples scraped. -/
def convLen (samples : List Sample) : Option Nat := some samples.length

/-!  Association-list lemmas. -/

theorem alookup_append {α : Type} (m₁ m₂ : List (String × α)) (d : String) :
    alookup (m₁ ++ m₂) d =
      match alookup m₁ d with
      | some v => some v
      | none => alookup m₂ d := by
  induction m₁ with
  | nil => simp [alookup]
  | cons e rest ih =>
    obtain ⟨k, v⟩ := e
    by_cases h : k = d <;> simp [alookup, h, ih]

theorem alookup_amodify {α : Type} (m : List (String × α)) (k : String) (f : α → α)
    (d : String) :
    alookup (amodify m k f) d = if k = d then (alookup m d).map f else alookup m d := by
  induction m with
  | nil => simp [alookup, amodify]
  | cons e rest ih =>
    obtain ⟨k0, v⟩ := e
    by_cases h0 : k0 = k
    · subst h0
      by_cases hd : k0 = d <;> simp [alookup, amodify, hd]
    · by_cases hd : k0 = d
      · subst hd
        have hk : k ≠ k0 := fun he => h0 he.symm
        simp [alookup, amodify, h0, hk]
      · simp [alookup, amodify, h0, hd, ih]

theorem alookup_ainsert_self {α : Type} (m : List (String × α)) (k : String) (v : α) :
    alookup (ainsert m k v) k = some v := by
  induction m with
  | nil => simp [alookup, ainsert]
  | cons e rest ih =>
    obtain ⟨k0, w⟩ := e
    by_cases h0 : k0 = k <;> simp [alookup, ainsert, h0, ih]

theorem alookup_eq_none_iff {α : Type} (m : List (String × α)) (d : String) :
    alookup m d = none ↔ d ∉ m.map Prod.fst := by
  induction m with
  | nil => simp [alookup]
  | cons e rest ih =>
    obtain ⟨k, v⟩ := e
    by_cases h : k = d
    · subst h; simp [alookup]
    · have hne : d ≠ k := fun he => h he.symm
      simp [alookup, h, ih, hne]

theorem alookup_isSome_iff {α : Type} (m : List (String × α)) (d : String) :
    (alookup m d).isSome = true ↔ d ∈ m.map Prod.fst := by
  rw [Option.isSome_iff_ne_none, ne_eq, alookup_eq_none_iff, not_not]

theorem alookup_of_mem {α : Type} (m : List (String × α)) (k : String) (v : α)
    (hnd : (m.map Prod.fst).Nodup) (hm : (k, v) ∈ m) : alookup m k = some v := by
  induction m with
  | nil => simp at hm
  | cons e rest ih =>
    obtain ⟨k0, w⟩ := e
    simp only [List.map_cons, List.nodup_cons] at hnd
    rcases List.mem_cons.mp hm with h | h
    · obtain ⟨hk, hv⟩ := Prod.mk.injEq _ _ _ _ ▸ h
      simp [alookup, hk.symm, hv]
    · have hk0 : k0 ≠ k := by
        intro he; subst he
        exact hnd.1 (List.mem_map.mpr ⟨(k0, v), h, rfl⟩)
      simp [alookup, hk0, ih hnd.2 h]

theorem keys_amodify {α : Type} (m : List (String × α)) (k : String) (f : α → α) :
    (amodify m k f).map Prod.fst = m.map Prod.fst := by
  induction m with
  | nil => simp [amodify]
  | cons e rest ih =>
    obtain ⟨k0, v⟩ := e
    by_cases h0 : k0 = k <;> simp [amodify, h0, ih]

theorem keys_aremove_sublist {α : Type} (m : List (String × α)) (k : String) :
    ((aremove m k).map Prod.fst).Sublist (m.map Prod.fst) := by
  induction m with
  | nil => simp [aremove]
  | cons e rest ih =>
    obtain ⟨k0, v⟩ := e
    by_cases h0 : k0 = k
    · simp [aremove, h0]
    · simpa [aremove, h0] using ih.cons₂ k0

theorem alookup_aremove {α : Type} (m : List (String × α)) (k d : String)
    (hnd : (m.map Prod.fst).Nodup) :
    alookup (aremove m k) d = if k = d then none else alookup m d := by
  induction m with
  | nil => simp [alookup, aremove]
  | cons e rest ih =>
    obtain ⟨k0, v⟩ := e
    simp only [List.map_cons, List.nodup_cons] at hnd
    by_cases h0 : k0 = k
    · subst h0
      by_cases hd : k0 = d
      · subst hd
        simp [aremove, (alookup_eq_none_iff rest k0).mpr hnd.1]
      · simp [aremove, alookup, hd]
    · by_cases hd : k0 = d
      · subst hd
        simp [aremove, alookup, h0]
        intro he; exact absurd he.symm h0
      · simp [aremove, alookup, h0, hd, ih hnd.2]

/-!  Round-robin selection lemmas. -/

theorem findAfter_eq_getElem (l : List String) (d : String) :
    findAfter l d = l[l.indexOf d + 1]? := by
  induction l with
  | nil => simp [findAfter]
  | cons a rest ih =>
    by_cases h : a = d
    · subst h
      simp [findAfter, List.indexOf_cons_self, List.head?_eq_getElem?]
    · have hbeq : (a == d) = false := beq_false_of_ne h
      simp [findAfter, h, List.indexOf_cons, hbeq, ih]

theorem mem_of_findAfter (l : List String) (d x : String) (h : findAfter l d = some x) :
    d ∈ l := by
  induction l with
  | nil => simp [findAfter] at h
  | cons a rest ih =>
    by_cases ha : a = d
    · simp [ha]
    · simp only [findAfter, ha, if_false] at h
      exact List.mem_cons_of_mem a (ih h)

theorem select_next_querier_eq_rr (map : QuerierMap) (ptr : Option String) :
    select_next_querier map ptr = roundRobinSpec (availableQueriers map) ptr := by
  unfold select_next_querier roundRobinSpec
  cases ptr with
  | none =>
    by_cases h : (availableQueriers map).isEmpty
    · simp [h, List.isEmpty_iff.mp h]
    · simp [h]
  | some last =>
    by_cases h : (availableQueriers map).isEmpty
    · rw [List.isEmpty_iff] at h
      simp [h]
    · simp only [h, Bool.false_eq_true, if_false]
      rcases hfa : findAfter (availableQueriers map) last with _ | x
      · rw [findAfter_eq_getElem] at hfa
        by_cases hmem : last ∈ availableQueriers map <;> simp [hmem, hfa]
      · have hmem : last ∈ availableQueriers map := mem_of_findAfter _ _ _ hfa
        rw [findAfter_eq_getElem] at hfa
        simp [hmem, hfa]

theorem mem_availableQueriers (map : QuerierMap) (d : String)
    (h : d ∈ availableQueriers map) : (alookup map d).isSome = true := by
  rw [alookup_isSome_iff]
  unfold availableQueriers at h
  obtain ⟨e, he, hd⟩ := List.mem_map.mp h
  exact List.mem_map.mpr ⟨e, List.mem_of_mem_filter he, hd⟩

theorem availableQueriers_eq_nil (map : QuerierMap)
    (h : ∀ e ∈ map, e.2.available = false) : availableQueriers map = [] := by
  unfold availableQueriers
  rw [List.map_eq_nil_iff, List.filter_eq_nil_iff]
  intro e he
  simp [h e he]

theorem rr_some_of_avail_ne_nil (avail : List String) (ptr : Option String)
    (h : avail ≠ []) : ∃ d, roundRobinSpec avail ptr = some d ∧ d ∈ avail := by
  obtain ⟨a, rest, rfl⟩ := List.exists_cons_of_ne_nil h
  cases ptr with
  | none => exact ⟨a, rfl, by simp⟩
  | some last =>
    unfold roundRobinSpec
    by_cases hc : last ∈ a :: rest
    · rcases hg : (a :: rest)[(a :: rest).indexOf last + 1]? with _ | x
      · exact ⟨a, by simp [hc, hg], by simp⟩
      · exact ⟨x, by simp [hc, hg], List.getElem?_mem hg⟩
    · exact ⟨a, by simp [hc], by simp⟩

/-!  LRU selection lemmas. -/

theorem lruLoop_after_none (m : QuerierMap) :
    ∀ c, lruLoop (some c) none m = some ((lastNoneDomain m).getD c) := by
  induction m with
  | nil => intro c; simp [lruLoop, lastNoneDomain]
  | cons e rest ih =>
    intro c
    obtain ⟨d, st⟩ := e
    rcases hlu : st.last_used with _ | t
    · rw [show lruLoop (some c) none ((d, st) :: rest) = lruLoop (some d) none rest from by
        simp [lruLoop, hlu]]
      rw [ih d]
      rcases hln : lastNoneDomain rest with _ | x <;> simp [lastNoneDomain, hln, hlu]
    · rw [show lruLoop (some c) none ((d, st) :: rest) = lruLoop (some c) none rest from by
        simp [lruLoop, hlu]]
      rw [ih c]
      rcases hln : lastNoneDomain rest with _ | x <;> simp [lastNoneDomain, hln, hlu]

theorem lruLoop_after_some (m : QuerierMap) :
    ∀ c t, lruLoop (some c) (some t) m =
      match lastNoneDomain m with
      | some x => some x
      | none =>
        match minInstant m with
        | some u => if u < t then firstWithInstant u m else some c
        | none => some c := by
  induction m with
  | nil => intro c t; simp [lruLoop, lastNoneDomain, minInstant]
  | cons e rest ih =>
    intro c t
    obtain ⟨d, st⟩ := e
    rcases hlu : st.last_used with _ | u
    · rw [show lruLoop (some c) (some t) ((d, st) :: rest) = lruLoop (some d) none rest from by
        simp [lruLoop, hlu]]
      rw [lruLoop_after_none rest d]
      rcases hln : lastNoneDomain rest with _ | x <;> simp [lastNoneDomain, hln, hlu]
    · have hpred : (fun e : String × QuerierStatus => decide (e.2.last_used = some u)) (d, st) = true := by
        simp [hlu]
      by_cases hut : u < t
      · rw [show lruLoop (some c) (some t) ((d, st) :: rest) = lruLoop (some d) (some u) rest from by
          simp [lruLoop, hlu, hut]]
        rw [ih d u]
        rcases hln : lastNoneDomain rest with _ | x
        · simp only [lastNoneDomain, hln, hlu]
          rcases hmi : minInstant rest with _ | v
          · simp only [minInstant, hlu, hmi]
            have h1 := List.find?_cons_of_pos (p := fun e : String × QuerierStatus =>
              decide (e.2.last_used = some u)) rest hpred
            simp [hut, firstWithInstant, h1]
          · simp only [minInstant, hlu, hmi]
            by_cases hvu : v < u
            · have hvt : v < t := lt_trans hvu hut
              have hmin : min u v = v := by omega
              have hne : ¬ (fun e : String × QuerierStatus =>
                  decide (e.2.last_used = some v)) (d, st) = true := by
                simp [hlu]; omega
              have h2 := List.find?_cons_of_neg (p := fun e : String × QuerierStatus =>
                decide (e.2.last_used = some v)) rest hne
              simp [hmin, hvt, hvu, firstWithInstant, h2]
            · have hmin : min u v = u := by omega
              have h1 := List.find?_cons_of_pos (p := fun e : String × QuerierStatus =>
                decide (e.2.last_used = some u)) rest hpred
              simp [hmin, hut, hvu, firstWithInstant, h1]
        · simp [lastNoneDomain, hln, hlu]
      · rw [show lruLoop (some c) (some t) ((d, st) :: rest) = lruLoop (some c) (some t) rest from by
          simp [lruLoop, hlu, hut]]
        rw [ih c t]
        rcases hln : lastNoneDomain rest with _ | x
        · simp only [lastNoneDomain, hln, hlu]
          rcases hmi : minInstant rest with _ | v
          · simp only [minInstant, hlu, hmi]
            simp [hut]
          · simp only [minInstant, hlu, hmi]
            by_cases hvt : v < t
            · have hvu : v < u := by omega
              have hmin : min u v = v := by omega
              have hne : ¬ (fun e : String × QuerierStatus =>
                  decide (e.2.last_used = some v)) (d, st) = true := by
                simp [hlu]; omega
              have h2 := List.find?_cons_of_neg (p := fun e : String × QuerierStatus =>
                decide (e.2.last_used = some v)) rest hne
              simp [hmin, hvt, firstWithInstant, h2]
            · have hmin : ¬ min u v < t := by omega
              simp [hvt, hmin]
        · simp [lastNoneDomain, hln, hlu]

theorem select_lru_eq_spec (map : QuerierMap) :
    select_least_recently_used_querier map = lruSpec map := by
  cases map with
  | nil => rfl
  | cons e rest =>
    obtain ⟨d, st⟩ := e
    unfold select_least_recently_used_querier
    rcases hlu : st.last_used with _ | t
    · rw [show lruLoop none none ((d, st) :: rest) = lruLoop (some d) none rest from by
        simp [lruLoop, hlu]]
      rw [lruLoop_after_none rest d]
      rcases hln : lastNoneDomain rest with _ | x <;>
        simp [lruSpec, lastNoneDomain, hln, hlu]
    · have hpred : (fun e : String × QuerierStatus => decide (e.2.last_used = some t)) (d, st) = true := by
        simp [hlu]
      rw [show lruLoop none none ((d, st) :: rest) = lruLoop (some d) (some t) rest from by
        simp [lruLoop, hlu]]
      rw [lruLoop_after_some rest d t]
      rcases hln : lastNoneDomain rest with _ | x
      · simp only [lruSpec, lastNoneDomain, hln, hlu, firstMinDomain]
        rcases hmi : minInstant rest with _ | v
        · simp only [minInstant, hlu, hmi]
          have h1 := List.find?_cons_of_pos (p := fun e : String × QuerierStatus =>
            decide (e.2.last_used = some t)) rest hpred
          simp [firstWithInstant, h1]
        · simp only [minInstant, hlu, hmi]
          by_cases hvt : v < t
          · have hmin : min t v = v := by omega
            have hne : ¬ (fun e : String × QuerierStatus =>
                decide (e.2.last_used = some v)) (d, st) = true := by
              simp [hlu]; omega
            have h2 := List.find?_cons_of_neg (p := fun e : String × QuerierStatus =>
              decide (e.2.last_used = some v)) rest hne
            simp [hmin, hvt, firstWithInstant, h2]
          · have hmin : min t v = t := by omega
            have h1 := List.find?_cons_of_pos (p := fun e : String × QuerierStatus =>
              decide (e.2.last_used = some t)) rest hpred
            simp [hmin, hvt, firstWithInstant, h1]
      · simp [lruSpec, lastNoneDomain, hln, hlu]

theorem lastNoneDomain_entry (m : QuerierMap) (d : String)
    (h : lastNoneDomain m = some d) : ∃ st, (d, st) ∈ m ∧ st.last_used = none := by
  induction m with
  | nil => simp [lastNoneDomain] at h
  | cons e rest ih =>
    obtain ⟨k, st0⟩ := e
    rcases hln : lastNoneDomain rest with _ | x
    · rw [lastNoneDomain, hln] at h
      by_cases h0 : st0.last_used = none
      · rw [if_pos h0] at h
        obtain rfl : k = d := Option.some.inj h
        exact ⟨st0, List.mem_cons_self _ _, h0⟩
      · rw [if_neg h0] at h; exact absurd h (by simp)
    · rw [lastNoneDomain, hln] at h
      obtain rfl : x = d := Option.some.inj h
      obtain ⟨st, hm, hn⟩ := ih hln
      exact ⟨st, List.mem_cons_of_mem _ hm, hn⟩

theorem minInstant_eq_none_iff (m : QuerierMap) :
    minInstant m = none ↔ ∀ e ∈ m, e.2.last_used = none := by
  induction m with
  | nil => simp [minInstant]
  | cons e rest ih =>
    obtain ⟨k, st0⟩ := e
    rcases hlu : st0.last_used with _ | u
    · have hstep : minInstant ((k, st0) :: rest) = minInstant rest := by
        simp [minInstant, hlu]
      rw [hstep, ih]
      constructor
      · intro h f hf
        rcases List.mem_cons.mp hf with h1 | h1
        · subst h1; exact hlu
        · exact h f h1
      · intro h f hf
        exact h f (List.mem_cons_of_mem _ hf)
    · have hne2 : minInstant ((k, st0) :: rest) ≠ none := by
        rcases hmi : minInstant rest with _ | v <;> simp [minInstant, hlu, hmi]
      constructor
      · intro h; exact absurd h hne2
      · intro h
        exact absurd (h (k, st0) (List.mem_cons_self _ _)) (by simp [hlu])

theorem lastNoneDomain_eq_none (m : QuerierMap) (hln : lastNoneDomain m = none) :
    ∀ e ∈ m, e.2.last_used ≠ none := by
  induction m with
  | nil => simp
  | cons e rest ih =>
    obtain ⟨k, st0⟩ := e
    rcases hrest : lastNoneDomain rest with _ | x
    · rw [lastNoneDomain, hrest] at hln
      intro f hf
      rcases List.mem_cons.mp hf with h | h
      · subst h
        intro hnone
        rw [if_pos hnone] at hln
        exact absurd hln (by simp)
      · exact ih hrest f h
    · rw [lastNoneDomain, hrest] at hln
      exact absurd hln (by simp)

theorem minInstant_mem (m : QuerierMap) (u : Nat) (h : minInstant m = some u) :
    ∃ e ∈ m, e.2.last_used = some u := by
  induction m with
  | nil => simp [minInstant] at h
  | cons f tail ih =>
    obtain ⟨k, st0⟩ := f
    rcases hf : st0.last_used with _ | w
    · rw [minInstant, hf] at h
      obtain ⟨en, hm, hp⟩ := ih h
      exact ⟨en, List.mem_cons_of_mem _ hm, hp⟩
    · rcases hmt : minInstant tail with _ | v
      · rw [minInstant, hf, hmt] at h
        exact ⟨(k, st0), List.mem_cons_self _ _, by rw [hf]; exact h⟩
      · rw [minInstant, hf, hmt] at h
        obtain rfl : min w v = u := Option.some.inj h
        rcases le_total w v with hwv | hwv
        · exact ⟨(k, st0), List.mem_cons_self _ _, by rw [hf]; congr 1; omega⟩
        · obtain ⟨en, hm, hp⟩ := ih (by rw [hmt]; congr 1; omega)
          exact ⟨en, List.mem_cons_of_mem _ hm, hp⟩

theorem lruSpec_isSome (m : QuerierMap) (hne : m ≠ []) :
    ∃ d st, lruSpec m = some d ∧ (d, st) ∈ m := by
  unfold lruSpec
  rcases hln : lastNoneDomain m with _ | x
  · have hall := lastNoneDomain_eq_none m hln
    obtain ⟨e, rest, rfl⟩ := List.exists_cons_of_ne_nil hne
    have hmi : minInstant (e :: rest) ≠ none := by
      rw [ne_eq, minInstant_eq_none_iff]
      intro hforall
      exact hall e (List.mem_cons_self _ _) (hforall e (List.mem_cons_self _ _))
    obtain ⟨u, hu⟩ := Option.ne_none_iff_exists.mp hmi
    have hfind : (((e :: rest).find? (fun en => en.2.last_used = some u))).isSome := by
      rw [List.find?_isSome]
      obtain ⟨en, hm, hp⟩ := minInstant_mem _ u hu.symm
      exact ⟨en, hm, by simp [hp]⟩
    obtain ⟨en, hen⟩ := Option.isSome_iff_exists.mp hfind
    refine ⟨en.1, en.2, ?_, List.mem_of_find?_eq_some hen⟩
    rw [firstMinDomain, ← hu]
    simp [firstWithInstant, hen]
  · obtain ⟨st, hm, _⟩ := lastNoneDomain_entry m x hln
    exact ⟨x, st, rfl, hm⟩

/-- C1: whenever at least one registry entry is available at selection time,
acquire picks per the round-robin rule of the spec over the available list —
the domain after the pointer when the pointer is a non-final element of the
list, the first available domain when the pointer is unset, absent or last —
marks the chosen entry dispatched, and sets the last-used pointer to the
chosen domain. -/
theorem round_robin_selection (map : QuerierMap) (ptr : Option String) (now : Nat)
    (h : ∃ e ∈ map, e.2.available = true) :
    ∃ d st, roundRobinSpec (availableQueriers map) ptr = some d ∧
      alookup map d = some st ∧
      select_and_acquire map ptr now =
        .ok ⟨st.metadata,
          amodify map d (fun s => { s with available := false, last_used := some now }),
          some d⟩ := by
  have havail : availableQueriers map ≠ [] := by
    obtain ⟨e, he, ha⟩ := h
    intro hnil
    have hmem : e.1 ∈ availableQueriers map :=
      List.mem_map.mpr ⟨e, List.mem_filter.mpr ⟨he, by simp [ha]⟩, rfl⟩
    rw [hnil] at hmem
    exact absurd hmem (List.not_mem_nil _)
  obtain ⟨d, hrr, hmem⟩ := rr_some_of_avail_ne_nil _ ptr havail
  obtain ⟨st, hst⟩ := Option.isSome_iff_exists.mp (mem_availableQueriers map d hmem)
  refine ⟨d, st, hrr, hst, ?_⟩
  unfold select_and_acquire
  rw [select_next_querier_eq_rr, hrr]
  simp [hst]

/-- Witness for C1: three available queriers a, b, c with the pointer at a;
the call picks b, marks it dispatched, and moves the pointer to b. -/
theorem round_robin_selection_witness :
    select_and_acquire rrMap (some "http://a/") 9 =
      .ok ⟨metaB,
        amodify rrMap "http://b/"
          (fun s => { s with available := false, last_used := some 9 }),
        some "http://b/"⟩ := by
  obtain ⟨d, st, h1, h2, h3⟩ := round_robin_selection rrMap (some "http://a/") 9 (by decide)
  have hc : roundRobinSpec (availableQueriers rrMap) (some "http://a/") = some "http://b/" := by
    decide
  rw [hc] at h1
  obtain rfl : "http://b/" = d := Option.some.inj h1
  have hl : alookup rrMap "http://b/" = some ⟨metaB, true, some 2⟩ := by decide
  rw [hl] at h2
  obtain rfl : (⟨metaB, true, some 2⟩ : QuerierStatus) = st := Option.some.inj h2
  exact h3

/-- Counterexample for C2: with two dispatched never-used entries a before b
in iteration order, the code returns b, not the first never-used entry a, so
a tie among never-used entries is broken toward the last, not per iteration
order. -/
theorem lru_tie_counterexample :
    select_and_acquire lruTieMap none 7 =
      .ok ⟨metaB,
        amodify lruTieMap "http://b/"
          (fun s => { s with available := false, last_used := some 7 }),
        none⟩ ∧
    firstNoneDomain lruTieMap = some "http://a/" ∧ metaB ≠ metaA := by
  refine ⟨by decide, by decide, by decide⟩

/-- C2 (amended): when the registry is non-empty and no entry is available,
acquire returns the entry selected by the LRU rule — the LAST entry in
iteration order whose last_used is None when one exists, otherwise the first
entry with the smallest last_used instant — and marks it dispatched with
last_used set to now, leaving the last-used pointer unchanged. -/
theorem lru_fallback_selection (map : QuerierMap) (ptr : Option String) (now : Nat)
    (hne : map ≠ []) (hunavail : ∀ e ∈ map, e.2.available = false)
    (hnd : (map.map Prod.fst).Nodup) :
    select_least_recently_used_querier map = lruSpec map ∧
    ∃ d st, lruSpec map = some d ∧ alookup map d = some st ∧
      select_and_acquire map ptr now =
        .ok ⟨st.metadata,
          amodify map d (fun s => { s with available := false, last_used := some now }),
          ptr⟩ := by
  refine ⟨select_lru_eq_spec map, ?_⟩
  obtain ⟨d, st, hspec, hmem⟩ := lruSpec_isSome map hne
  have hlook : alookup map d = some st := alookup_of_mem map d st hnd hmem
  refine ⟨d, st, hspec, hlook, ?_⟩
  have hsel : select_next_querier map ptr = none := by
    unfold select_next_querier
    rw [availableQueriers_eq_nil map hunavail]
    simp
  unfold select_and_acquire
  rw [hsel]
  show lruBranch map ptr now = _
  unfold lruBranch
  rw [select_lru_eq_spec map, hspec]
  simp [hlook]

/-- Witness for C2: three dispatched queriers with last-used instants 1, 2, 3;
acquire falls back to LRU and returns the first, oldest entry a. -/
theorem lru_fallback_selection_witness :
    select_and_acquire lruMap (some "http://c/") 9 =
      .ok ⟨metaA,
        amodify lruMap "http://a/"
          (fun s => { s with available := false, last_used := some 9 }),
        some "http://c/"⟩ := by
  obtain ⟨-, d, st, h1, h2, h3⟩ :=
    lru_fallback_selection lruMap (some "http://c/") 9 (by decide) (by decide) (by decide)
  have hc : lruSpec lruMap = some "http://a/" := by decide
  rw [hc] at h1
  obtain rfl : "http://a/" = d := Option.some.inj h1
  have hl : alookup lruMap "http://a/" = some ⟨metaA, false, some 1⟩ := by decide
  rw [hl] at h2
  obtain rfl : (⟨metaA, false, some 1⟩ : QuerierStatus) = st := Option.some.inj h2
  exact h3

/-!  Registry update phase lemmas. -/

theorem updateLivePhase_alookup (rs : List (String × Bool × QuerierMetadata)) :
    ∀ (map : QuerierMap) (d : String),
      alookup (updateLivePhase map rs) d =
        match alookup map d with
        | some st => some { st with metadata := (lastLiveMeta rs d).getD st.metadata }
        | none => (lastLiveMeta rs d).map (fun meta => (⟨meta, true, none⟩ : QuerierStatus)) := by
  induction rs with
  | nil =>
    intro map d
    rcases hl : alookup map d with _ | st
    · simp [updateLivePhase, hl, lastLiveMeta]
    · obtain ⟨ms, av, lu⟩ := st
      simp [updateLivePhase, hl, lastLiveMeta]
  | cons r rest ih =>
    intro map d
    obtain ⟨dom, live, meta⟩ := r
    have hstep : updateLivePhase map ((dom, live, meta) :: rest) =
        updateLivePhase
          (if live then
            if acontains map dom then amodify map dom (fun st => { st with metadata := meta })
            else map ++ [(dom, ⟨meta, true, none⟩)]
          else map) rest := by
      simp [updateLivePhase]
    rw [hstep]
    cases live with
    | false =>
      rw [if_neg (by simp)]
      rw [ih map d]
      have hll : lastLiveMeta ((dom, false, meta) :: rest) d = lastLiveMeta rest d := by
        rw [lastLiveMeta]
        rcases lastLiveMeta rest d with _ | m <;> simp
      rw [hll]
    | true =>
      rw [if_pos rfl]
      have hll : lastLiveMeta ((dom, true, meta) :: rest) d =
          match lastLiveMeta rest d with
          | some m => some m
          | none => if dom = d then some meta else none := by
        rw [lastLiveMeta]
        rcases lastLiveMeta rest d with _ | m <;> simp
      by_cases hdom : dom = d
      · subst hdom
        by_cases hc : acontains map dom
        · rw [if_pos hc]
          rw [ih _ dom]
          rw [alookup_amodify]
          rw [if_pos rfl]
          obtain ⟨st, hst⟩ := Option.isSome_iff_exists.mp hc
          rw [hst]
          rw [hll]
          rcases lastLiveMeta rest dom with _ | m <;> simp
        · rw [if_neg hc]
          rw [ih _ dom]
          rw [alookup_append]
          have hnone : alookup map dom = none := by
            rcases h : alookup map dom with _ | st
            · rfl
            · exact absurd (by simp [acontains, h]) hc
          rw [hnone]
          rw [show alookup [(dom, (⟨meta, true, none⟩ : QuerierStatus))] dom =
            some ⟨meta, true, none⟩ from by simp [alookup]]
          rw [hll]
          rcases lastLiveMeta rest dom with _ | m <;> simp
      · have hl2 :
            alookup
              (if acontains map dom then
                amodify map dom (fun st => { st with metadata := meta })
              else map ++ [(dom, ⟨meta, true, none⟩)]) d = alookup map d := by
          by_cases hc : acontains map dom
          · rw [if_pos hc, alookup_amodify, if_neg hdom]
          · rw [if_neg hc, alookup_append]
            rcases h : alookup map d with _ | st
            · simp [alookup, hdom]
            · simp
        rw [ih _ d, hl2, hll]
        have hland : ¬ (dom = d) := hdom
        rcases lastLiveMeta rest d with _ | m <;> simp [hland]

theorem updateLivePhase_nodup (rs : List (String × Bool × QuerierMetadata)) :
    ∀ (map : QuerierMap), (map.map Prod.fst).Nodup →
      ((updateLivePhase map rs).map Prod.fst).Nodup := by
  induction rs with
  | nil => intro map hnd; simpa [updateLivePhase] using hnd
  | cons r rest ih =>
    intro map hnd
    obtain ⟨dom, live, meta⟩ := r
    have hstep : updateLivePhase map ((dom, live, meta) :: rest) =
        updateLivePhase
          (if live then
            if acontains map dom then amodify map dom (fun st => { st with metadata := meta })
            else map ++ [(dom, ⟨meta, true, none⟩)]
          else map) rest := by
      simp [updateLivePhase]
    rw [hstep]
    apply ih
    cases live with
    | false => simpa using hnd
    | true =>
      rw [if_pos rfl]
      by_cases hc : acontains map dom
      · rw [if_pos hc, keys_amodify]; exact hnd
      · rw [if_neg hc]
        have hdom : dom ∉ map.map Prod.fst := by
          rw [← alookup_eq_none_iff]
          rcases h : alookup map dom with _ | st
          · rfl
          · exact absurd (by simp [acontains, h]) hc
        simp [List.nodup_append, hnd, hdom]

theorem prunePhase_alookup (ex : List String) :
    ∀ (m : QuerierMap) (live : List String) (d : String), (m.map Prod.fst).Nodup →
      alookup (prunePhase m ex live) d =
        if d ∈ ex ∧ d ∉ live then none else alookup m d := by
  induction ex with
  | nil => intro m live d _; simp [prunePhase]
  | cons e ex2 ih =>
    intro m live d hnd
    have hstep : prunePhase m (e :: ex2) live =
        prunePhase (if live.contains e then m else aremove m e) ex2 live := by
      simp [prunePhase]
    rw [hstep]
    by_cases hel : e ∈ live
    · rw [if_pos (List.elem_eq_true_of_mem hel)]
      rw [ih m live d hnd]
      by_cases hd : d ∈ ex2 ∧ d ∉ live
      · rw [if_pos hd, if_pos ⟨List.mem_cons_of_mem _ hd.1, hd.2⟩]
      · rw [if_neg hd]
        by_cases hcond : d ∈ e :: ex2 ∧ d ∉ live
        · exfalso
          rcases List.mem_cons.mp hcond.1 with h1 | h1
          · subst h1; exact hcond.2 hel
          · exact hd ⟨h1, hcond.2⟩
        · rw [if_neg hcond]
    · rw [if_neg (by simpa using hel)]
      have hnd2 : ((aremove m e).map Prod.fst).Nodup :=
        (keys_aremove_sublist m e).nodup hnd
      rw [ih (aremove m e) live d hnd2]
      rw [alookup_aremove m e d hnd]
      by_cases hde : e = d
      · subst hde
        have hcond : e ∈ e :: ex2 ∧ e ∉ live := ⟨List.mem_cons_self _ _, hel⟩
        rw [if_pos hcond]
        by_cases h2 : e ∈ ex2 ∧ e ∉ live
        · rw [if_pos h2]
        · rw [if_neg h2, if_pos rfl]
      · rw [if_neg hde]
        by_cases h2 : d ∈ ex2 ∧ d ∉ live
        · rw [if_pos h2, if_pos ⟨List.mem_cons_of_mem _ h2.1, h2.2⟩]
        · rw [if_neg h2]
          by_cases hcond : d ∈ e :: ex2 ∧ d ∉ live
          · exfalso
            rcases List.mem_cons.mp hcond.1 with h1 | h1
            · exact hde h1.symm
            · exact h2 ⟨h1, hcond.2⟩
          · rw [if_neg hcond]

theorem lastLiveMeta_isSome_iff (rs : List (String × Bool × QuerierMetadata)) (d : String) :
    (lastLiveMeta rs d).isSome = true ↔ d ∈ liveSet rs := by
  induction rs with
  | nil => simp [lastLiveMeta, liveSet]
  | cons r rest ih =>
    obtain ⟨dom, live, meta⟩ := r
    rcases hr : lastLiveMeta rest d with _ | m
    · rw [hr] at ih
      have hnot : d ∉ liveSet rest := fun h => by simpa using ih.mpr h
      cases live with
      | false =>
        have hls : liveSet ((dom, false, meta) :: rest) = liveSet rest := by
          simp [liveSet]
        simp only [lastLiveMeta, hr, hls]
        rw [if_neg (by simp)]
        simp only [Option.isSome_none, Bool.false_eq_true, false_iff]
        exact hnot
      | true =>
        have hls : liveSet ((dom, true, meta) :: rest) = dom :: liveSet rest := by
          simp [liveSet]
        simp only [lastLiveMeta, hr, hls]
        by_cases hdom : dom = d
        · subst hdom
          rw [if_pos (by simp)]
          simp
        · rw [if_neg (by simp [hdom])]
          simp only [Option.isSome_none, Bool.false_eq_true, false_iff, List.mem_cons]
          rintro (h1 | h1)
          · exact hdom h1.symm
          · exact hnot h1
    · rw [hr] at ih
      have hmem : d ∈ liveSet rest := ih.mp (by simp)
      simp only [lastLiveMeta, hr, Option.isSome_some, true_iff]
      cases live with
      | false =>
        have hls : liveSet ((dom, false, meta) :: rest) = liveSet rest := by
          simp [liveSet]
        rw [hls]; exact hmem
      | true =>
        have hls : liveSet ((dom, true, meta) :: rest) = dom :: liveSet rest := by
          simp [liveSet]
        rw [hls]; exact List.mem_cons_of_mem _ hmem

theorem updateQuerierMap_alookup (map : QuerierMap)
    (rs : List (String × Bool × QuerierMetadata)) (d : String)
    (hnd : (map.map Prod.fst).Nodup) :
    alookup (updateQuerierMap map rs) d =
      if d ∈ map.map Prod.fst ∧ d ∉ liveSet rs then none
      else
        match alookup map d with
        | some st => some { st with metadata := (lastLiveMeta rs d).getD st.metadata }
        | none => (lastLiveMeta rs d).map (fun meta => (⟨meta, true, none⟩ : QuerierStatus)) := by
  unfold updateQuerierMap
  rw [show rs.filterMap (fun r => if r.2.1 then some r.1 else none) = liveSet rs from rfl]
  rw [prunePhase_alookup (map.map Prod.fst) (updateLivePhase map rs) (liveSet rs) d
    (updateLivePhase_nodup rs map hnd)]
  rw [updateLivePhase_alookup rs map d]

/-- C4: after the registry-update phase of an acquire call, the key set of
the querier map is exactly the set of domains the probe reported live, every
surviving pre-existing entry keeps its available and last_used fields, and
every newly inserted entry starts available with no last_used. -/
theorem registry_pruning (map : QuerierMap)
    (rs : List (String × Bool × QuerierMetadata))
    (hnd : (map.map Prod.fst).Nodup) :
    (∀ d, acontains (updateQuerierMap map rs) d = true ↔ d ∈ liveSet rs) ∧
    (∀ d st2, alookup (updateQuerierMap map rs) d = some st2 →
      match alookup map d with
      | some st => st2.available = st.available ∧ st2.last_used = st.last_used
      | none => st2.available = true ∧ st2.last_used = none) := by
  constructor
  · intro d
    unfold acontains
    rw [updateQuerierMap_alookup map rs d hnd]
    by_cases hin : d ∈ map.map Prod.fst ∧ d ∉ liveSet rs
    · rw [if_pos hin]
      simp [hin.2]
    · rw [if_neg hin]
      rcases hl : alookup map d with _ | st
      · rw [← lastLiveMeta_isSome_iff rs d]
        cases lastLiveMeta rs d <;> simp
      · have hkey : d ∈ map.map Prod.fst := by
          rw [← alookup_isSome_iff]; simp [hl]
        have hlive : d ∈ liveSet rs := by
          by_contra hno
          exact hin ⟨hkey, hno⟩
        simp [hlive]
  · intro d st2
    rw [updateQuerierMap_alookup map rs d hnd]
    by_cases hin : d ∈ map.map Prod.fst ∧ d ∉ liveSet rs
    · rw [if_pos hin]
      intro h
      exact absurd h (by simp)
    · rw [if_neg hin]
      rcases hl : alookup map d with _ | st
      · rcases hm : lastLiveMeta rs d with _ | meta
        · intro h
          exact absurd h (by simp)
        · intro h
          have h2 : some (⟨meta, true, none⟩ : QuerierStatus) = some st2 := h
          obtain rfl := Option.some.inj h2
          exact ⟨rfl, rfl⟩
      · intro h
        obtain rfl := Option.some.inj h
        exact ⟨rfl, rfl⟩

/-- Witness for C4: registry holding a and b, probe reporting b dead and c
newly live; afterwards the keys are exactly the live set, and the entry of c
starts fresh. -/
theorem registry_pruning_witness :
    (acontains (updateQuerierMap pruneMap pruneProbe) "http://b/" = true ↔
      "http://b/" ∈ liveSet pruneProbe) ∧
    (match alookup pruneMap "http://c/" with
      | some st => (⟨metaC, true, none⟩ : QuerierStatus).available = st.available ∧
          (⟨metaC, true, none⟩ : QuerierStatus).last_used = st.last_used
      | none => (⟨metaC, true, none⟩ : QuerierStatus).available = true ∧
          (⟨metaC, true, none⟩ : QuerierStatus).last_used = none) := by
  have h := registry_pruning pruneMap pruneProbe (by decide)
  exact ⟨h.1 "http://b/", h.2 "http://c/" ⟨metaC, true, none⟩ (by decide)⟩

/-!  Billing explosion lemmas. -/

theorem mem_simpleFamilyEvents (c : BillingMetricsCollector) (ty : String)
    (data : List (String × Nat)) (e : BillingMetricEvent)
    (h : e ∈ simpleFamilyEvents c ty data) : 0 < e.value ∧ e.event_time = c.event_time := by
  simp only [simpleFamilyEvents, List.mem_filterMap] at h
  obtain ⟨a, _, ha⟩ := h
  by_cases hp : 0 < a.2
  · rw [if_pos hp] at ha
    obtain rfl := Option.some.inj ha
    exact ⟨hp, rfl⟩
  · rw [if_neg hp] at ha
    exact absurd ha (by simp)

theorem mem_objStoreFamilyEvents (c : BillingMetricsCollector) (ty : String)
    (data : List (String × List (String × Nat))) (e : BillingMetricEvent)
    (h : e ∈ objStoreFamilyEvents c ty data) : 0 < e.value ∧ e.event_time = c.event_time := by
  simp only [objStoreFamilyEvents, List.mem_flatMap, List.mem_filterMap] at h
  obtain ⟨me, _, de, _, hde⟩ := h
  by_cases hp : 0 < de.2
  · rw [if_pos hp] at hde
    obtain rfl := Option.some.inj hde
    exact ⟨hp, rfl⟩
  · rw [if_neg hp] at hde
    exact absurd hde (by simp)

theorem mem_llmFamilyEvents (c : BillingMetricsCollector) (ty : String)
    (data : List (String × List (String × List (String × Nat)))) (e : BillingMetricEvent)
    (h : e ∈ llmFamilyEvents c ty data) : 0 < e.value ∧ e.event_time = c.event_time := by
  simp only [llmFamilyEvents, List.mem_flatMap, List.mem_filterMap] at h
  obtain ⟨pe, _, me, _, de, _, hde⟩ := h
  by_cases hp : 0 < de.2
  · rw [if_pos hp] at hde
    obtain rfl := Option.some.inj hde
    exact ⟨hp, rfl⟩
  · rw [if_neg hp] at hde
    exact absurd hde (by simp)

theorem mem_ite_nil {α : Type} (b : Prop) [Decidable b] (l : List α) (e : α)
    (h : e ∈ if b then ([] : List α) else l) : e ∈ l := by
  by_cases hb : b
  · rw [if_pos hb] at h; exact absurd h (List.not_mem_nil e)
  · rwa [if_neg hb] at h

theorem mem_addSimpleMetrics (c : BillingMetricsCollector) (e : BillingMetricEvent)
    (h : e ∈ addSimpleMetrics c) : 0 < e.value ∧ e.event_time = c.event_time := by
  simp only [addSimpleMetrics, List.mem_append] at h
  rcases h with ((((((h | h) | h) | h) | h) | h) | h) <;>
    exact mem_simpleFamilyEvents c _ _ e (mem_ite_nil _ _ e h)

theorem mem_addObjectStoreMetrics (c : BillingMetricsCollector) (e : BillingMetricEvent)
    (h : e ∈ addObjectStoreMetrics c) : 0 < e.value ∧ e.event_time = c.event_time := by
  simp only [addObjectStoreMetrics, List.mem_flatMap] at h
  obtain ⟨p, _, hp⟩ := h
  exact mem_objStoreFamilyEvents c _ _ e (mem_ite_nil _ _ e hp)

theorem mem_addLlmMetrics (c : BillingMetricsCollector) (e : BillingMetricEvent)
    (h : e ∈ addLlmMetrics c) : 0 < e.value ∧ e.event_time = c.event_time := by
  simp only [addLlmMetrics, List.mem_flatMap] at h
  obtain ⟨p, _, hp⟩ := h
  exact mem_llmFamilyEvents c _ _ e (mem_ite_nil _ _ e hp)

/-- C5: every event exploded from a collector has a strictly positive value
and carries the event time stamped at collector construction; and when every
innermost date map of the collector is empty, no event is produced. -/
theorem billing_events_properties (c : BillingMetricsCollector) :
    (∀ e ∈ c.into_events, 0 < e.value ∧ e.event_time = c.event_time) ∧
    ((c.total_events_ingested_by_date = [] ∧ c.total_events_ingested_size_by_date = [] ∧
      c.total_parquets_stored_by_date = [] ∧ c.total_parquets_stored_size_by_date = [] ∧
      c.total_query_calls_by_date = [] ∧ c.total_files_scanned_in_query_by_date = [] ∧
      c.total_bytes_scanned_in_query_by_date = [] ∧
      (∀ me ∈ c.total_object_store_calls_by_date, me.2 = []) ∧
      (∀ me ∈ c.total_files_scanned_in_object_store_calls_by_date, me.2 = []) ∧
      (∀ me ∈ c.total_bytes_scanned_in_object_store_calls_by_date, me.2 = []) ∧
      (∀ pe ∈ c.total_input_llm_tokens_by_date, ∀ me ∈ pe.2, me.2 = []) ∧
      (∀ pe ∈ c.total_output_llm_tokens_by_date, ∀ me ∈ pe.2, me.2 = [])) →
      c.into_events = []) := by
  constructor
  · intro e he
    simp only [BillingMetricsCollector.into_events, List.mem_append] at he
    rcases he with (h | h) | h
    · exact mem_addSimpleMetrics c e h
    · exact mem_addObjectStoreMetrics c e h
    · exact mem_addLlmMetrics c e h
  · rintro ⟨h1, h2, h3, h4, h5, h6, h7, ho1, ho2, ho3, hl1, hl2⟩
    have hobj : ∀ (ty : String) (data : List (String × List (String × Nat))),
        (∀ me ∈ data, me.2 = []) → objStoreFamilyEvents c ty data = [] := by
      intro ty data hdata
      rw [objStoreFamilyEvents, List.flatMap_eq_nil_iff]
      intro me hme
      rw [hdata me hme]
      rfl
    have hllm : ∀ (ty : String) (data : List (String × List (String × List (String × Nat)))),
        (∀ pe ∈ data, ∀ me ∈ pe.2, me.2 = []) → llmFamilyEvents c ty data = [] := by
      intro ty data hdata
      rw [llmFamilyEvents, List.flatMap_eq_nil_iff]
      intro pe hpe
      rw [List.flatMap_eq_nil_iff]
      intro me hme
      rw [hdata pe hpe me hme]
      rfl
    rw [BillingMetricsCollector.into_events]
    rw [show addSimpleMetrics c = [] from by
      rw [addSimpleMetrics, h1, h2, h3, h4, h5, h6, h7]; rfl]
    rw [show addObjectStoreMetrics c = [] from by
      rw [addObjectStoreMetrics, List.flatMap_eq_nil_iff]
      intro p hp
      simp only [List.mem_cons, List.not_mem_nil, or_false] at hp
      rcases hp with rfl | rfl | rfl
      · split
        · rfl
        · exact hobj _ _ ho1
      · split
        · rfl
        · exact hobj _ _ ho2
      · split
        · rfl
        · exact hobj _ _ ho3]
    rw [show addLlmMetrics c = [] from by
      rw [addLlmMetrics, List.flatMap_eq_nil_iff]
      intro p hp
      simp only [List.mem_cons, List.not_mem_nil, or_false] at hp
      rcases hp with rfl | rfl
      · split
        · rfl
        · exact hllm _ _ hl1
      · split
        · rfl
        · exact hllm _ _ hl2]
    rfl

/-- Witness for C5: a collector with one non-zero entry; its single event has
a positive value and the shared construction timestamp. -/
theorem billing_events_properties_witness :
    0 < (mkSimpleEvent (BillingMetricsCollector.new "http://a/" "ingestor" 42)
        "total_events_ingested" "2024-01-01" 5).value ∧
    (mkSimpleEvent (BillingMetricsCollector.new "http://a/" "ingestor" 42)
        "total_events_ingested" "2024-01-01" 5).event_time =
      (BillingMetricsCollector.new "http://a/" "ingestor" 42).event_time := by
  have h := (billing_events_properties
    { BillingMetricsCollector.new "http://a/" "ingestor" 42 with
        total_events_ingested_by_date := [("2024-01-01", 5)] }).1
  have hev := h (mkSimpleEvent (BillingMetricsCollector.new "http://a/" "ingestor" 42)
      "total_events_ingested" "2024-01-01" 5) (by decide)
  exact hev

/-!  Time-independence lemmas of the billing aggregation. -/

theorem process_simple_metric_time (c : BillingMetricsCollector) (m : String)
    (l : List (String × String)) (v : Rat) (t : Nat) :
    process_simple_metric { c with event_time := t } m l v =
      { process_simple_metric c m l v with event_time := t } := by
  unfold process_simple_metric
  cases alookup l "date" with
  | none => rfl
  | some date => split_ifs <;> rfl

theorem process_object_store_metric_time (c : BillingMetricsCollector) (m : String)
    (l : List (String × String)) (v : Rat) (t : Nat) :
    process_object_store_metric { c with event_time := t } m l v =
      { process_object_store_metric c m l v with event_time := t } := by
  unfold process_object_store_metric
  cases alookup l "method" with
  | none => rfl
  | some method =>
    cases alookup l "date" with
    | none => rfl
    | some date => split_ifs <;> rfl

theorem process_llm_metric_time (c : BillingMetricsCollector) (m : String)
    (l : List (String × String)) (v : Rat) (t : Nat) :
    process_llm_metric { c with event_time := t } m l v =
      { process_llm_metric c m l v with event_time := t } := by
  unfold process_llm_metric
  cases alookup l "provider" with
  | none => rfl
  | some provider =>
    cases alookup l "model" with
    | none => rfl
    | some model =>
      cases alookup l "date" with
      | none => rfl
      | some date => split_ifs <;> rfl

theorem process_sample_time (c : BillingMetricsCollector) (s : Sample) (v : Rat) (t : Nat) :
    process_sample { c with event_time := t } s v =
      { process_sample c s v with event_time := t } := by
  unfold process_sample
  split_ifs <;>
    first
      | exact process_simple_metric_time c s.metric s.labels v t
      | exact process_object_store_metric_time c s.metric s.labels v t
      | exact process_llm_metric_time c s.metric s.labels v t
      | rfl

theorem processSamples_time (samples : List Sample) :
    ∀ (c : BillingMetricsCollector) (t : Nat),
      processSamples { c with event_time := t } samples =
        { processSamples c samples with event_time := t } := by
  induction samples with
  | nil => intro c t; rfl
  | cons s rest ih =>
    intro c t
    have hstep : ∀ c2 : BillingMetricsCollector, processSamples c2 (s :: rest) =
        processSamples
          (match s.value with
            | .counter v => process_sample c2 s v
            | _ => c2) rest := by
      intro c2; rfl
    rw [hstep, hstep c]
    cases s.value with
    | counter v =>
      show processSamples (process_sample { c with event_time := t } s v) rest =
        { processSamples (process_sample c s v) rest with event_time := t }
      rw [process_sample_time c s v t]
      exact ih (process_sample c s v) t
    | gauge v =>
      show processSamples { c with event_time := t } rest =
        { processSamples c rest with event_time := t }
      exact ih c t
    | untyped v =>
      show processSamples { c with event_time := t } rest =
        { processSamples c rest with event_time := t }
      exact ih c t
    | histogram =>
      show processSamples { c with event_time := t } rest =
        { processSamples c rest with event_time := t }
      exact ih c t
    | summary =>
      show processSamples { c with event_time := t } rest =
        { processSamples c rest with event_time := t }
      exact ih c t

theorem simpleFamilyEvents_time (c : BillingMetricsCollector) (t : Nat) (ty : String)
    (data : List (String × Nat)) :
    simpleFamilyEvents { c with event_time := t } ty data =
      (simpleFamilyEvents c ty data).map (fun e => { e with event_time := t }) := by
  unfold simpleFamilyEvents
  rw [List.map_filterMap]
  apply List.filterMap_congr
  intro p _
  split <;> rfl

theorem objStoreFamilyEvents_time (c : BillingMetricsCollector) (t : Nat) (ty : String)
    (data : List (String × List (String × Nat))) :
    objStoreFamilyEvents { c with event_time := t } ty data =
      (objStoreFamilyEvents c ty data).map (fun e => { e with event_time := t }) := by
  unfold objStoreFamilyEvents
  rw [List.map_flatMap]
  apply List.flatMap_congr
  intro me _
  rw [List.map_filterMap]
  apply List.filterMap_congr
  intro de _
  split <;> rfl

theorem llmFamilyEvents_time (c : BillingMetricsCollector) (t : Nat) (ty : String)
    (data : List (String × List (String × List (String × Nat)))) :
    llmFamilyEvents { c with event_time := t } ty data =
      (llmFamilyEvents c ty data).map (fun e => { e with event_time := t }) := by
  unfold llmFamilyEvents
  rw [List.map_flatMap]
  apply List.flatMap_congr
  intro pe _
  rw [List.map_flatMap]
  apply List.flatMap_congr
  intro me _
  rw [List.map_filterMap]
  apply List.filterMap_congr
  intro de _
  split <;> rfl

theorem into_events_time (c : BillingMetricsCollector) (t : Nat) :
    BillingMetricsCollector.into_events { c with event_time := t } =
      (BillingMetricsCollector.into_events c).map (fun e => { e with event_time := t }) := by
  unfold BillingMetricsCollector.into_events
  rw [List.map_append, List.map_append]
  have hsimple : addSimpleMetrics { c with event_time := t } =
      (addSimpleMetrics c).map (fun e => { e with event_time := t }) := by
    unfold addSimpleMetrics
    simp only [List.map_append, apply_ite (List.map (fun e : BillingMetricEvent => { e with event_time := t })),
      List.map_nil, simpleFamilyEvents_time]
  have hobj : addObjectStoreMetrics { c with event_time := t } =
      (addObjectStoreMetrics c).map (fun e => { e with event_time := t }) := by
    unfold addObjectStoreMetrics
    rw [List.map_flatMap]
    apply List.flatMap_congr
    intro p _
    simp only [apply_ite (List.map (fun e : BillingMetricEvent => { e with event_time := t })),
      List.map_nil, objStoreFamilyEvents_time]
  have hllm : addLlmMetrics { c with event_time := t } =
      (addLlmMetrics c).map (fun e => { e with event_time := t }) := by
    unfold addLlmMetrics
    rw [List.map_flatMap]
    apply List.flatMap_congr
    intro p _
    simp only [apply_ite (List.map (fun e : BillingMetricEvent => { e with event_time := t })),
      List.map_nil, llmFamilyEvents_time]
  rw [hsimple, hobj, hllm]

theorem extract_time_shift (samples : List Sample) (a nt : String) (t : Nat) :
    extract_billing_metrics_from_samples samples a nt t =
      (extract_billing_metrics_from_samples samples a nt 0).map
        (fun e => { e with event_time := t }) := by
  unfold extract_billing_metrics_from_samples
  have hnew : BillingMetricsCollector.new a nt t =
      { BillingMetricsCollector.new a nt 0 with event_time := t } := rfl
  rw [hnew, processSamples_time, into_events_time]

/-- Counterexample for C6: the aggregation stamps the wall-clock construction
time into every event, so the same samples, node address and node type
produce different event rows (hence different multisets) at different clock
readings; a sample set producing one event at time 0 and at time 1 already
differs. -/
theorem billing_extract_clock_counterexample :
    ¬ (extract_billing_metrics_from_samples [sampleSimple] "http://a/" "ingestor" 0).Perm
        (extract_billing_metrics_from_samples [sampleSimple] "http://a/" "ingestor" 1) ∧
    (extract_billing_metrics_from_samples [sampleSimple] "http://a/" "ingestor" 0).length = 1 := by
  refine ⟨by decide, by decide⟩

/-- C6 (amended): the billing aggregation is pure and deterministic in the
sample set, node address and node type up to the construction timestamp:
any two invocations yield identical event lists once event_time is erased,
and every emitted event carries the construction timestamp of its own
invocation. -/
theorem billing_extract_pure_up_to_time (samples : List Sample) (a nt : String)
    (t1 t2 : Nat) :
    (extract_billing_metrics_from_samples samples a nt t1).map eraseEventTime =
      (extract_billing_metrics_from_samples samples a nt t2).map eraseEventTime ∧
    ∀ e ∈ extract_billing_metrics_from_samples samples a nt t1, e.event_time = t1 := by
  constructor
  · rw [extract_time_shift samples a nt t1, extract_time_shift samples a nt t2]
    rw [List.map_map, List.map_map]
    rfl
  · intro e he
    rw [extract_time_shift samples a nt t1] at he
    obtain ⟨e0, _, rfl⟩ := List.mem_map.mp he
    rfl

/-- Witness for C6: the simple sample aggregated at times 3 and 8 gives the
same rows up to the timestamp, and the row of the first invocation is
stamped 3. -/
theorem billing_extract_pure_up_to_time_witness :
    (extract_billing_metrics_from_samples [sampleSimple] "http://a/" "ingestor" 3).map
        eraseEventTime =
      (extract_billing_metrics_from_samples [sampleSimple] "http://a/" "ingestor" 8).map
        eraseEventTime ∧
    (mkSimpleEvent (BillingMetricsCollector.new "http://a/" "ingestor" 3)
        "total_events_ingested" "2024-01-01" 5).event_time = 3 := by
  refine ⟨(billing_extract_pure_up_to_time [sampleSimple] "http://a/" "ingestor" 3 8).1, ?_⟩
  exact (billing_extract_pure_up_to_time [sampleSimple] "http://a/" "ingestor" 3 8).2
    (mkSimpleEvent (BillingMetricsCollector.new "http://a/" "ingestor" 3)
      "total_events_ingested" "2024-01-01" 5) (by decide)

/-!  Overwrite semantics of duplicate samples. -/

theorem alookup2_ainsert2 (m : List (String × List (String × Nat))) (k1 k2 : String)
    (v : Nat) : alookup2 (ainsert2 m k1 k2 v) k1 k2 = some v := by
  unfold alookup2 ainsert2
  rw [alookup_ainsert_self]
  exact alookup_ainsert_self _ k2 v

theorem alookup3_ainsert3 (m : List (String × List (String × List (String × Nat))))
    (k1 k2 k3 : String) (v : Nat) : alookup3 (ainsert3 m k1 k2 k3 v) k1 k2 k3 = some v := by
  unfold alookup3 ainsert3
  rw [alookup_ainsert_self]
  exact alookup2_ainsert2 _ k2 k3 v

theorem is_simple_metric_cases (metric : String) (h : is_simple_metric metric = true) :
    metric = "parseable_total_events_ingested_by_date" ∨
    metric = "parseable_total_events_ingested_size_by_date" ∨
    metric = "parseable_total_parquets_stored_by_date" ∨
    metric = "parseable_total_parquets_stored_size_by_date" ∨
    metric = "parseable_total_query_calls_by_date" ∨
    metric = "parseable_total_files_scanned_in_query_by_date" ∨
    metric = "parseable_total_bytes_scanned_in_query_by_date" := by
  simpa [is_simple_metric, or_assoc] using h

theorem is_object_store_metric_cases (metric : String)
    (h : is_object_store_metric metric = true) :
    metric = "parseable_total_object_store_calls_by_date" ∨
    metric = "parseable_total_files_scanned_in_object_store_calls_by_date" ∨
    metric = "parseable_total_bytes_scanned_in_object_store_calls_by_date" := by
  simpa [is_object_store_metric, or_assoc] using h

theorem is_llm_metric_cases (metric : String) (h : is_llm_metric metric = true) :
    metric = "parseable_total_input_llm_tokens_by_date" ∨
    metric = "parseable_total_output_llm_tokens_by_date" := by
  simpa [is_llm_metric, or_assoc] using h

/-- C10: processing two counter samples of the same metric with the same
discriminating labels keeps only the value of the second, overwriting rather
than summing, in each of the three metric families. -/
theorem duplicate_sample_overwrites (c : BillingMetricsCollector) (metric : String)
    (l1 l2 : List (String × String)) (v1 v2 : Rat) :
    (∀ date, is_simple_metric metric = true →
      alookup l1 "date" = some date → alookup l2 "date" = some date →
      alookup (simpleFieldOf metric
          (process_simple_metric (process_simple_metric c metric l1 v1) metric l2 v2)) date =
        some (f64_as_u64 v2)) ∧
    (∀ method date, is_object_store_metric metric = true →
      alookup l1 "method" = some method → alookup l1 "date" = some date →
      alookup l2 "method" = some method → alookup l2 "date" = some date →
      alookup2 (objFieldOf metric
          (process_object_store_metric
            (process_object_store_metric c metric l1 v1) metric l2 v2)) method date =
        some (f64_as_u64 v2)) ∧
    (∀ provider model date, is_llm_metric metric = true →
      alookup l1 "provider" = some provider → alookup l1 "model" = some model →
      alookup l1 "date" = some date →
      alookup l2 "provider" = some provider → alookup l2 "model" = some model →
      alookup l2 "date" = some date →
      alookup3 (llmFieldOf metric
          (process_llm_metric (process_llm_metric c metric l1 v1) metric l2 v2))
        provider model date = some (f64_as_u64 v2)) := by
  refine ⟨?_, ?_, ?_⟩
  · intro date hs hd1 hd2
    rcases is_simple_metric_cases metric hs with rfl | rfl | rfl | rfl | rfl | rfl | rfl <;>
      simp [process_simple_metric, simpleFieldOf, hd1, hd2, alookup_ainsert_self]
  · intro method date hs hm1 hd1 hm2 hd2
    rcases is_object_store_metric_cases metric hs with rfl | rfl | rfl <;>
      simp [process_object_store_metric, objFieldOf, hm1, hd1, hm2, hd2, alookup2_ainsert2]
  · intro provider model date hs hp1 hmo1 hd1 hp2 hmo2 hd2
    rcases is_llm_metric_cases metric hs with rfl | rfl <;>
      simp [process_llm_metric, llmFieldOf, hp1, hmo1, hd1, hp2, hmo2, hd2, alookup3_ainsert3]

/-- Witness for C10: two events-ingested samples for the same date with
values 3 and 5 leave 5, two object-store samples leave the second value, and
two LLM samples likewise. -/
theorem duplicate_sample_overwrites_witness :
    alookup (simpleFieldOf "parseable_total_events_ingested_by_date"
        (process_simple_metric
          (process_simple_metric (BillingMetricsCollector.new "http://a/" "ingestor" 0)
            "parseable_total_events_ingested_by_date" [("date", "2024-01-01")] 3)
          "parseable_total_events_ingested_by_date" [("date", "2024-01-01")] 5))
      "2024-01-01" = some (f64_as_u64 5) := by
  exact (duplicate_sample_overwrites (BillingMetricsCollector.new "http://a/" "ingestor" 0)
    "parseable_total_events_ingested_by_date" [("date", "2024-01-01")]
    [("date", "2024-01-01")] 3 5).1 "2024-01-01" (by decide) (by decide) (by decide)

/-!  Dispatcher release. -/

/-- C3: after a successful acquire, the dispatch path calls
mark_querier_available exactly once on the acquired domain on every outcome
path, so the registry entry of that domain ends available; and a non-2xx
response whose body reads back as a string makes the call return the
JsonParse error carrying that body. -/
theorem dispatcher_release (parse_json : String → Option JsonValue)
    (querier : QuerierMetadata) (outcome : SendOutcome) (map : QuerierMap) :
    (send_query_request parse_json querier outcome map).1 = [querier.domain_name] ∧
    (send_query_request parse_json querier outcome map).2.1 =
      mark_querier_available map querier.domain_name ∧
    (∀ st, alookup map querier.domain_name = some st →
      alookup (send_query_request parse_json querier outcome map).2.1
        querier.domain_name = some { st with available := true }) ∧
    (∀ res body, outcome = .response res → res.status_success = false →
      res.text_result = some body →
      (send_query_request parse_json querier outcome map).2.2 =
        .error (.jsonParse body)) := by
  have hmark : ∀ st, alookup map querier.domain_name = some st →
      alookup (mark_querier_available map querier.domain_name)
        querier.domain_name = some { st with available := true } := by
    intro st hst
    unfold mark_querier_available
    rw [alookup_amodify, if_pos rfl, hst]
    rfl
  have hfn : (send_query_request parse_json querier outcome map).1 =
        [querier.domain_name] ∧
      (send_query_request parse_json querier outcome map).2.1 =
        mark_querier_available map querier.domain_name := by
    cases outcome with
    | serErr => exact ⟨rfl, rfl⟩
    | sendErr => exact ⟨rfl, rfl⟩
    | response res =>
      obtain ⟨succ, hdr, txt⟩ := res
      cases succ with
      | false => cases txt <;> exact ⟨rfl, rfl⟩
      | true =>
        cases txt with
        | none => exact ⟨rfl, rfl⟩
        | some text =>
          rcases hpj : parse_json text with _ | j <;>
            exact ⟨by simp [send_query_request, hpj], by simp [send_query_request, hpj]⟩
  refine ⟨hfn.1, hfn.2, ?_, ?_⟩
  · intro st hst
    rw [hfn.2]
    exact hmark st hst
  · intro res body hout hstat htext
    subst hout
    obtain ⟨succ, hdr, txt⟩ := res
    simp only at hstat htext
    subst hstat
    subst htext
    rfl

/-- Witness for C3: a peer answering 500 with body text; the trace holds one
release, the entry of the acquired domain is available again, and the result
is the JsonParse error with the body. -/
theorem dispatcher_release_witness :
    (send_query_request parseAll metaA
        (.response ⟨false, some "12ms", some "boom"⟩) lruTieMap).1 = [metaA.domain_name] ∧
    alookup (send_query_request parseAll metaA
        (.response ⟨false, some "12ms", some "boom"⟩) lruTieMap).2.1 metaA.domain_name =
      some { (⟨metaA, false, none⟩ : QuerierStatus) with available := true } ∧
    (send_query_request parseAll metaA
        (.response ⟨false, some "12ms", some "boom"⟩) lruTieMap).2.2 =
      .error (.jsonParse "boom") := by
  have h := dispatcher_release parseAll metaA
    (.response ⟨false, some "12ms", some "boom"⟩) lruTieMap
  refine ⟨h.1, ?_, ?_⟩
  · exact h.2.2.1 ⟨metaA, false, none⟩ (by decide)
  · exact h.2.2.2 ⟨false, some "12ms", some "boom"⟩ "boom" rfl rfl rfl

/-!  Broadcast fan-out. -/

theorem collectResults_ok_iff {ε : Type} (rs : List (Except ε Unit)) :
    collectResults rs = .ok () ↔ ∀ r ∈ rs, r = .ok () := by
  induction rs with
  | nil => simp [collectResults]
  | cons r rest ih =>
    cases r with
    | ok u =>
      cases u
      rw [show collectResults (Except.ok () :: rest) = collectResults rest from rfl, ih]
      constructor
      · intro h r2 hr2
        rcases List.mem_cons.mp hr2 with h1 | h1
        · subst h1; rfl
        · exact h r2 h1
      · intro h r2 hr2
        exact h r2 (List.mem_cons_of_mem _ hr2)
    | error e =>
      rw [show collectResults (Except.error e :: rest) = Except.error e from rfl]
      constructor
      · intro h; exact absurd h (by simp)
      · intro h
        exact absurd (h (Except.error e) (List.mem_cons_self _ _)) (by simp)

theorem collectResults_first_error {ε : Type} (l1 : List (Except ε Unit))
    (e : ε) (l2 : List (Except ε Unit)) (h : ∀ r ∈ l1, r = .ok ()) :
    collectResults (l1 ++ .error e :: l2) = .error e := by
  induction l1 with
  | nil => rfl
  | cons r rest ih =>
    have hr : r = .ok () := h r (List.mem_cons_self _ _)
    subst hr
    rw [List.cons_append]
    rw [show collectResults (Except.ok () :: (rest ++ .error e :: l2)) =
      collectResults (rest ++ .error e :: l2) from rfl]
    exact ih (fun r2 hr2 => h r2 (List.mem_cons_of_mem _ hr2))

/-- C7: the broadcast executor runs the action of every live ingestor (each
action leaves its effect even when another action fails), returns ok exactly
when every action succeeded, and otherwise returns the first error in the
order of the live-ingestor list. -/
theorem broadcast_best_effort {α ε : Type} (ingestors : List NodeMetadata)
    (is_live : NodeMetadata → Bool) (api_fn : NodeMetadata → α × Except ε Unit) :
    (for_each_live_ingestor ingestors is_live api_fn).1 =
      (ingestors.filter is_live).map (fun p => (api_fn p).1) ∧
    ((for_each_live_ingestor ingestors is_live api_fn).2 = .ok () ↔
      ∀ p ∈ ingestors.filter is_live, (api_fn p).2 = .ok ()) ∧
    (∀ (l1 : List NodeMetadata) (p : NodeMetadata) (l2 : List NodeMetadata) (e : ε),
      ingestors.filter is_live = l1 ++ p :: l2 →
      (∀ q ∈ l1, (api_fn q).2 = .ok ()) → (api_fn p).2 = .error e →
      (for_each_live_ingestor ingestors is_live api_fn).2 = .error e) := by
  unfold for_each_live_ingestor
  simp only [List.map_map]
  refine ⟨rfl, ?_, ?_⟩
  · rw [collectResults_ok_iff]
    constructor
    · intro h p hp
      exact h ((fun r => r.2) ∘ api_fn <| p) (List.mem_map.mpr ⟨p, hp, rfl⟩)
    · intro h r hr
      obtain ⟨p, hp, rfl⟩ := List.mem_map.mp hr
      exact h p hp
  · intro l1 p l2 e hsplit hok herr
    rw [hsplit, List.map_append, List.map_cons]
    have hpe : ((fun r : α × Except ε Unit => r.2) ∘ api_fn) p = Except.error e := herr
    rw [hpe]
    exact collectResults_first_error _ e _ (by
      intro r hr
      obtain ⟨q, hq, rfl⟩ := List.mem_map.mp hr
      exact hok q hq)

/-- Witness for C7: three live ingestors of which the middle one fails; both
other effects are present and the call returns the middle error. -/
theorem broadcast_best_effort_witness :
    (for_each_live_ingestor
        [(⟨"http://i1/", "t1"⟩ : NodeMetadata), ⟨"http://i2/", "t2"⟩, ⟨"http://i3/", "t3"⟩]
        (fun _ => true)
        (fun n => (n.domain_name,
          if n.domain_name = "http://i2/" then Except.error "refused" else Except.ok ()))).1 =
      ["http://i1/", "http://i2/", "http://i3/"] ∧
    (for_each_live_ingestor
        [(⟨"http://i1/", "t1"⟩ : NodeMetadata), ⟨"http://i2/", "t2"⟩, ⟨"http://i3/", "t3"⟩]
        (fun _ => true)
        (fun n => (n.domain_name,
          if n.domain_name = "http://i2/" then Except.error "refused" else Except.ok ()))).2 =
      .error "refused" := by
  have h := broadcast_best_effort
    [(⟨"http://i1/", "t1"⟩ : NodeMetadata), ⟨"http://i2/", "t2"⟩, ⟨"http://i3/", "t3"⟩]
    (fun _ => true)
    (fun n => (n.domain_name,
      if n.domain_name = "http://i2/" then Except.error "refused" else Except.ok ()))
  refine ⟨by simpa using h.1, ?_⟩
  exact h.2.2 [⟨"http://i1/", "t1"⟩] ⟨"http://i2/", "t2"⟩ [⟨"http://i3/", "t3"⟩] "refused"
    (by decide) (by decide) (by decide)

/-!  Cluster metrics collection. -/

/-- Counterexample for C8: in the operational variant, a parse error on one
peer fails the whole pass instead of skipping that peer; alone, the second
peer would have contributed its metrics. -/
theorem metrics_parse_error_counterexample :
    fetch_nodes_metrics convLen [ScrapeOutcome.parseErr, ScrapeOutcome.okSamples []] =
      .error .customError ∧
    fetch_nodes_metrics convLen [ScrapeOutcome.okSamples []] = .ok [0] := by
  exact ⟨rfl, rfl⟩

theorem billing_fold_eq_flatMap (nodes : List BillingNodeInput) :
    ∀ acc : List BillingMetricEvent,
      nodes.foldl
        (fun acc n =>
          match fetch_node_billing_metrics n with
          | .ok evs => acc ++ evs
          | .error _ => acc)
        acc =
      acc ++ nodes.flatMap
        (fun n =>
          match fetch_node_billing_metrics n with
          | .ok evs => evs
          | .error _ => []) := by
  induction nodes with
  | nil => intro acc; simp
  | cons n rest ih =>
    intro acc
    rw [List.foldl_cons, List.flatMap_cons]
    rcases hf : fetch_node_billing_metrics n with e | evs <;>
      simp only [hf] <;> rw [ih] <;> simp

theorem collectNodeMetrics_all_ok {μ : Type} (rs : List (Except PostError (Option μ)))
    (h : ∀ r ∈ rs, ∃ v, r = .ok v) :
    collectNodeMetrics rs = .ok (rs.filterMap
      (fun r => match r with | .ok v => v | .error _ => none)) := by
  induction rs with
  | nil => rfl
  | cons r rest ih =>
    obtain ⟨v, hv⟩ := h r (List.mem_cons_self _ _)
    subst hv
    have ih2 := ih (fun r2 hr2 => h r2 (List.mem_cons_of_mem _ hr2))
    cases v with
    | none =>
      rw [show collectNodeMetrics (Except.ok (none : Option μ) :: rest) =
        collectNodeMetrics rest from rfl, ih2]
      rfl
    | some m =>
      rw [show collectNodeMetrics (Except.ok (some m) :: rest) =
        (match collectNodeMetrics rest with
          | .ok l => .ok (m :: l)
          | .error e => .error e) from rfl, ih2]
      rfl

theorem collectNodeMetrics_err {μ : Type} (rs : List (Except PostError (Option μ)))
    (r : Except PostError (Option μ)) (e : PostError) (hmem : r ∈ rs)
    (hr : r = .error e) : ∃ e2, collectNodeMetrics rs = .error e2 := by
  induction rs with
  | nil => exact absurd hmem (List.not_mem_nil r)
  | cons r0 rest ih =>
    rcases List.mem_cons.mp hmem with h1 | h1
    · subst h1
      subst hr
      exact ⟨e, rfl⟩
    · cases r0 with
      | error e0 => exact ⟨e0, rfl⟩
      | ok v =>
        obtain ⟨e2, he2⟩ := ih h1
        cases v with
        | none => exact ⟨e2, he2⟩
        | some m =>
          refine ⟨e2, ?_⟩
          rw [show collectNodeMetrics (Except.ok (some m) :: rest) =
            (match collectNodeMetrics rest with
              | .ok l => .ok (m :: l)
              | .error e => .error e) from rfl, he2]

/-- C8 (amended): only the billing variant skips a failing peer — it always
returns the events collected from the peers whose scrape succeeded; the
operational variant returns the collected metrics only when no per-node
fetch errs (dead peers and transport errors are skipped as None), and fails
the whole pass when any per-node fetch errs; a metadata-load failure for any
role fails either cluster call. -/
theorem metrics_error_routing {μ : Type} (conv : List Sample → Option μ) :
    (∀ nodes : List BillingNodeInput,
      fetch_nodes_billing_metrics nodes = .ok (nodes.flatMap
        (fun n =>
          match fetch_node_billing_metrics n with
          | .ok evs => evs
          | .error _ => []))) ∧
    (∀ nodes : List ScrapeOutcome,
      (∀ o ∈ nodes, ∃ v, fetch_node_metrics conv o = .ok v) →
      fetch_nodes_metrics conv nodes = .ok (nodes.filterMap
        (fun o => match fetch_node_metrics conv o with | .ok v => v | .error _ => none))) ∧
    (∀ (nodes : List ScrapeOutcome) (o : ScrapeOutcome) (e : PostError), o ∈ nodes →
      fetch_node_metrics conv o = .error e →
      ∃ e2, fetch_nodes_metrics conv nodes = .error e2) ∧
    (∀ p q i x : Except Unit (List ScrapeOutcome),
      (p = .error () ∨ q = .error () ∨ i = .error () ∨ x = .error ()) →
      fetch_cluster_metrics conv p q i x = .error .invalid) ∧
    (∀ pb qb ib xb : Except Unit (List BillingNodeInput),
      (pb = .error () ∨ qb = .error () ∨ ib = .error () ∨ xb = .error ()) →
      fetch_cluster_billing_metrics pb qb ib xb = .error .invalid) := by
  refine ⟨?_, ?_, ?_, ?_, ?_⟩
  · intro nodes
    unfold fetch_nodes_billing_metrics
    by_cases hne : nodes.isEmpty
    · rw [if_pos hne]
      rw [List.isEmpty_iff.mp hne]
      rfl
    · rw [if_neg hne]
      rw [billing_fold_eq_flatMap nodes []]
      rfl
  · intro nodes h
    unfold fetch_nodes_metrics
    by_cases hne : nodes.isEmpty
    · rw [if_pos hne]
      rw [List.isEmpty_iff.mp hne]
      rfl
    · rw [if_neg hne]
      rw [collectNodeMetrics_all_ok]
      · rw [List.filterMap_map]
        rfl
      · intro r hr
        obtain ⟨o, ho, rfl⟩ := List.mem_map.mp hr
        exact h o ho
  · intro nodes o e hmem he
    unfold fetch_nodes_metrics
    rw [if_neg (by rw [List.isEmpty_iff]; rintro rfl; exact absurd hmem (List.not_mem_nil o))]
    exact collectNodeMetrics_err _ (fetch_node_metrics conv o) e
      (List.mem_map.mpr ⟨o, hmem, rfl⟩) he
  · rintro p q i x h
    rcases p with u | ps <;> rcases q with u2 | qs <;> rcases i with u3 | is2 <;>
      rcases x with u4 | xs <;> first
        | rfl
        | simp at h
  · rintro pb qb ib xb h
    rcases pb with u | ps <;> rcases qb with u2 | qs <;> rcases ib with u3 | is2 <;>
      rcases xb with u4 | xs <;> first
        | rfl
        | simp at h

/-- Witness for C8: the billing variant with a body-read failure on one peer
still returns the events of the other; the operational variant with clean
peers returns their metrics; a querier metadata failure poisons both cluster
calls. -/
theorem metrics_error_routing_witness :
    fetch_nodes_billing_metrics
        [⟨"http://a/", "ingestor", 0, .bodyErr⟩, ⟨"http://b/", "ingestor", 0, .okSamples []⟩] =
      .ok [] ∧
    fetch_nodes_metrics convLen [ScrapeOutcome.notLive, ScrapeOutcome.okSamples []] =
      .ok [0] ∧
    fetch_cluster_metrics convLen (.ok []) (.error ()) (.ok []) (.ok []) = .error .invalid ∧
    fetch_cluster_billing_metrics (.ok []) (.error ()) (.ok []) (.ok []) = .error .invalid := by
  have h := metrics_error_routing convLen
  refine ⟨?_, ?_, ?_, ?_⟩
  · have h1 := h.1
      [⟨"http://a/", "ingestor", 0, .bodyErr⟩, ⟨"http://b/", "ingestor", 0, .okSamples []⟩]
    rw [h1]
    rfl
  · have h2 := h.2.1 [ScrapeOutcome.notLive, ScrapeOutcome.okSamples []] (by
      intro o ho
      rcases List.mem_cons.mp ho with rfl | ho2
      · exact ⟨none, rfl⟩
      · rcases List.mem_cons.mp ho2 with rfl | ho3
        · exact ⟨some 0, rfl⟩
        · exact absurd ho3 (List.not_mem_nil o))
    rw [h2]
    rfl
  · exact h.2.2.2.1 (.ok []) (.error ()) (.ok []) (.ok []) (Or.inr (Or.inl rfl))
  · exact h.2.2.2.2 (.ok []) (.error ()) (.ok []) (.ok []) (Or.inr (Or.inl rfl))

/-!  Cluster info endpoint. -/

/-- Counterexample for C9: a peer whose about exchange yields a response (for
example a 500) whose body lacks the staging field makes fetch_node_info and
the whole fetch_nodes_info pass return an error; no unreachable ClusterInfo
entry is produced and the endpoint does not answer with the per-node
array. -/
theorem cluster_info_counterexample :
    fetch_node_info ⟨⟨"http://a/", "tok"⟩, "querier", "s3",
        .sendOk "500 Internal Server Error" (.parsed .missing)⟩ = .error .serde ∧
    fetch_nodes_info [⟨⟨"http://a/", "tok"⟩, "querier", "s3",
        .sendOk "500 Internal Server Error" (.parsed .missing)⟩] = .error .serde := by
  exact ⟨rfl, rfl⟩

theorem collectInfos_all_ok (rs : List (Except StreamError ClusterInfo))
    (h : ∀ r ∈ rs, ∃ i, r = .ok i) :
    ∃ infos, collectInfos rs = .ok infos ∧ infos.length = rs.length := by
  induction rs with
  | nil => exact ⟨[], rfl, rfl⟩
  | cons r rest ih =>
    obtain ⟨i, hi⟩ := h r (List.mem_cons_self _ _)
    subst hi
    obtain ⟨infos, hinf, hlen⟩ := ih (fun r2 hr2 => h r2 (List.mem_cons_of_mem _ hr2))
    refine ⟨i :: infos, ?_, by simp [hlen]⟩
    rw [show collectInfos (Except.ok i :: rest) =
      (match collectInfos rest with
        | .ok l => .ok (i :: l)
        | .error e => .error e) from rfl, hinf]

theorem collectInfos_err (rs : List (Except StreamError ClusterInfo))
    (r : Except StreamError ClusterInfo) (e : StreamError) (hmem : r ∈ rs)
    (hr : r = .error e) : ∃ e2, collectInfos rs = .error e2 := by
  induction rs with
  | nil => exact absurd hmem (List.not_mem_nil r)
  | cons r0 rest ih =>
    rcases List.mem_cons.mp hmem with h1 | h1
    · subst h1
      subst hr
      exact ⟨e, rfl⟩
    · cases r0 with
      | error e0 => exact ⟨e0, rfl⟩
      | ok i =>
        obtain ⟨e2, he2⟩ := ih h1
        refine ⟨e2, ?_⟩
        rw [show collectInfos (Except.ok i :: rest) =
          (match collectInfos rest with
            | .ok l => .ok (i :: l)
            | .error e => .error e) from rfl, he2]

/-- C9 (amended): only a transport failure of the about request yields a
ClusterInfo entry with reachable false, empty staging path and the recorded
error and status; a fully successful exchange yields a reachable entry with
the staging string extracted; every other outcome of the exchange — body
read failure, parse failure, missing or non-string staging field, the
typical result of a non-2xx response — is an error of fetch_node_info, and
one such node fails the whole fetch_nodes_info pass instead of being
reported unreachable; when every node succeeds the pass returns one entry
per node. -/
theorem cluster_info_error_routing :
    (∀ (n : NodeAboutInput) (msg : String) (status : Option String),
      n.outcome = .sendErr msg status →
      fetch_node_info n =
        .ok ⟨n.node.domain_name, false, "", n.storage_endpoint, some msg, status, n.node_type⟩) ∧
    (∀ (n : NodeAboutInput) (status sp : String),
      n.outcome = .sendOk status (.parsed (.str sp)) →
      fetch_node_info n =
        .ok ⟨n.node.domain_name, true, sp, n.storage_endpoint, none, some status, n.node_type⟩) ∧
    (∀ (n : NodeAboutInput) (status : String),
      (n.outcome = .sendOk status .bytesErr → fetch_node_info n = .error .network) ∧
      (n.outcome = .sendOk status .parseFail → fetch_node_info n = .error .serde) ∧
      (n.outcome = .sendOk status (.parsed .missing) → fetch_node_info n = .error .serde) ∧
      (n.outcome = .sendOk status (.parsed .nonString) → fetch_node_info n = .error .serde)) ∧
    (∀ nodes : List NodeAboutInput,
      (∀ n ∈ nodes, ∃ i, fetch_node_info n = .ok i) →
      ∃ infos, fetch_nodes_info nodes = .ok infos ∧ infos.length = nodes.length) ∧
    (∀ (nodes : List NodeAboutInput) (n : NodeAboutInput) (e : StreamError), n ∈ nodes →
      fetch_node_info n = .error e → ∃ e2, fetch_nodes_info nodes = .error e2) := by
  refine ⟨?_, ?_, ?_, ?_, ?_⟩
  · intro n msg status hout
    unfold fetch_node_info
    rw [hout]
  · intro n status sp hout
    unfold fetch_node_info
    rw [hout]
  · intro n status
    refine ⟨?_, ?_, ?_, ?_⟩ <;>
      (intro hout; unfold fetch_node_info; rw [hout])
  · intro nodes h
    unfold fetch_nodes_info
    by_cases hne : nodes.isEmpty
    · rw [if_pos hne]
      rw [List.isEmpty_iff.mp hne]
      exact ⟨[], rfl, rfl⟩
    · rw [if_neg hne]
      obtain ⟨infos, hinf, hlen⟩ := collectInfos_all_ok (nodes.map fetch_node_info) (by
        intro r hr
        obtain ⟨n, hn, rfl⟩ := List.mem_map.mp hr
        exact h n hn)
      exact ⟨infos, hinf, by rw [hlen, List.length_map]⟩
  · intro nodes n e hmem he
    unfold fetch_nodes_info
    rw [if_neg (by rw [List.isEmpty_iff]; rintro rfl; exact absurd hmem (List.not_mem_nil n))]
    exact collectInfos_err _ (fetch_node_info n) e (List.mem_map.mpr ⟨n, hmem, rfl⟩) he

/-- Witness for C9: a transport-failing peer yields an unreachable entry with
the recorded message and status, a successful peer yields a reachable entry
with its staging path, and a pass over both returns two entries. -/
theorem cluster_info_error_routing_witness :
    fetch_node_info ⟨⟨"http://a/", "tok"⟩, "querier", "s3",
        .sendErr "connection refused" none⟩ =
      .ok ⟨"http://a/", false, "", "s3", some "connection refused", none, "querier"⟩ ∧
    fetch_node_info ⟨⟨"http://b/", "tok"⟩, "querier", "s3",
        .sendOk "200 OK" (.parsed (.str "/tmp/staging"))⟩ =
      .ok ⟨"http://b/", true, "/tmp/staging", "s3", none, some "200 OK", "querier"⟩ ∧
    ∃ infos, fetch_nodes_info
        [⟨⟨"http://a/", "tok"⟩, "querier", "s3", .sendErr "connection refused" none⟩,
         ⟨⟨"http://b/", "tok"⟩, "querier", "s3",
           .sendOk "200 OK" (.parsed (.str "/tmp/staging"))⟩] = .ok infos ∧
      infos.length = 2 := by
  have h := cluster_info_error_routing
  refine ⟨h.1 _ "connection refused" none rfl, h.2.1 _ "200 OK" "/tmp/staging" rfl, ?_⟩
  obtain ⟨infos, hinf, hlen⟩ := h.2.2.2.1
    [⟨⟨"http://a/", "tok"⟩, "querier", "s3", .sendErr "connection refused" none⟩,
     ⟨⟨"http://b/", "tok"⟩, "querier", "s3", .sendOk "200 OK" (.parsed (.str "/tmp/staging"))⟩]
    (by
      intro n hn
      rcases List.mem_cons.mp hn with rfl | hn2
      · exact ⟨_, rfl⟩
      · rcases List.mem_cons.mp hn2 with rfl | hn3
        · exact ⟨_, rfl⟩
        · exact absurd hn3 (List.not_mem_nil n))
  exact ⟨infos, hinf, hlen⟩

end Parseable
